import Mathlib

/-!
# Trace API plugin configuration and the state-history trace codec

Part I embeds `plugins/trace_api_plugin/trace_api_plugin.cpp`: the three
`plugin_initialize` members that read the program options.

Part II models the state-history trace converter and the trace log, whose
callers are the unit tests in `unittests/state_history_tests.cpp`.
-/

namespace eosio

/-! ## Part I: program options -/

/-- Exceptions that can leave the `plugin_initialize` members. -/
inductive exception where
  /-- The exception `chain::plugin_config_exception`, raised by `EOS_ASSERT` / `EOS_THROW`. -/
  | plugin_config_exception (msg : String)
  /-- The exception `std::out_of_range`, raised by `variables_map::at` on a missing key. -/
  | out_of_range
  /-- The exception `boost::bad_any_cast`, raised by `variable_value::as<T>` on another type. -/
  | bad_any_cast
  /-- any exception raised by a callee outside this file. -/
  | failure (what : String)
  deriving DecidableEq, Repr

/-- The C++ type `uint32_t`. -/
abbrev uint32_t := Fin (2 ^ 32)

/-- The C++ type `uint64_t`. -/
abbrev uint64_t := Fin (2 ^ 64)

/-- The type `boost::filesystem::path`, kept as its string. -/
abbrev path := String

/-- The value held by one entry of `appbase::variables_map`
(`boost::program_options::variable_value`), for the value types that
`set_program_options` declares. -/
inductive variable_value where
  | of_path (v : path)
  | of_uint32 (v : uint32_t)
  | of_uint64 (v : uint64_t)
  | of_strings (v : List String)
  /-- an option declared without a value (`trace-no-abis`). -/
  | untyped
  deriving DecidableEq

/-- The type `appbase::variables_map`: a map from option name to value. -/
abbrev variables_map := List (String × variable_value)

/-- The member `variables_map::count`: 1 when the key is present, 0 otherwise. -/
def variables_map.count (options : variables_map) (key : String) : Nat :=
  match options.lookup key with
  | some _ => 1
  | none => 0

/-- The member `variables_map::at`: the value, or `std::out_of_range`. -/
def variables_map.at (options : variables_map) (key : String) : Except exception variable_value :=
  match options.lookup key with
  | some v => .ok v
  | none => .error .out_of_range

/-- The cast `variable_value::as<bfs::path>()` -/
def variable_value.as_path : variable_value → Except exception path
  | .of_path v => .ok v
  | _ => .error .bad_any_cast

/-- The cast `variable_value::as<uint32_t>()` -/
def variable_value.as_uint32 : variable_value → Except exception uint32_t
  | .of_uint32 v => .ok v
  | _ => .error .bad_any_cast

/-- The cast `variable_value::as<uint64_t>()` -/
def variable_value.as_uint64 : variable_value → Except exception uint64_t
  | .of_uint64 v => .ok v
  | _ => .error .bad_any_cast

/-- The cast `variable_value::as<std::vector<std::string>>()` -/
def variable_value.as_strings : variable_value → Except exception (List String)
  | .of_strings v => .ok v
  | _ => .error .bad_any_cast

/-- The lookup `variables_map::operator[]` followed by `as<std::vector<std::string>>()`:
a missing key gives an empty value, whose cast fails. -/
def variables_map.get_strings (options : variables_map) (key : String) :
    Except exception (List String) :=
  match options.lookup key with
  | some v => v.as_strings
  | none => .error .bad_any_cast

/-- The macro `EOS_ASSERT(cond, chain::plugin_config_exception, msg)` -/
def EOS_ASSERT (cond : Bool) (msg : String) : Except exception Unit :=
  if cond then .ok () else .error (.plugin_config_exception msg)

/-- The parts of the application and of `boost::filesystem` that
`plugin_initialize` calls: `app().data_dir()`, `path::is_relative` and
`operator/`. -/
structure application where
  data_dir : path
  is_relative : path → Bool
  join : path → path → path

/-! ### trace_api_common_impl -/

/-- The type `struct trace_api_common_impl`: the common configuration parameters. -/
structure trace_api_common_impl where
  trace_dir : path := ""
  slice_stride : uint32_t := 0
  deriving DecidableEq

/-- The member `trace_api_common_impl::plugin_initialize` -/
def trace_api_common_impl.plugin_initialize (app : application)
    (self : trace_api_common_impl) (options : variables_map) :
    Except exception trace_api_common_impl := do
  let dir_option ← (← options.at "trace-dir").as_path
  let self :=
    if app.is_relative dir_option then
      { self with trace_dir := app.join app.data_dir dir_option }
    else
      { self with trace_dir := dir_option }
  let slice_stride ← (← options.at "trace-slice-stride").as_uint32
  pure { self with slice_stride := slice_stride }

/-! ### trace_api_plugin_impl -/

/-- Conversion of a signed literal to `uint64_t` (the usual arithmetic
conversion applied to `-1` and `0` in the comparisons with `value`). -/
def to_uint64 (i : Int) : uint64_t :=
  ⟨(i % 2 ^ 64).toNat, by
    have h1 : 0 ≤ i % 2 ^ 64 := Int.emod_nonneg _ (by norm_num)
    have h2 : i % 2 ^ 64 < 2 ^ 64 := Int.emod_lt_of_pos _ (by norm_num)
    omega⟩

/-- Conversion of a `uint64_t` to `int64_t` (two's complement), applied when
`value` is passed to the constructor `fc::microseconds(int64_t)`. -/
def to_int64 (v : uint64_t) : Int :=
  if v.val < 2 ^ 63 then (v.val : Int) else (v.val : Int) - 2 ^ 64

/-- Modelled from the spec: `fc::microseconds` belongs to the fc library and
is not among the sources. It is the "duration value with a sentinel meaning
never delete": a count of microseconds held in a signed 64-bit integer, the
sentinel `maximum()` being the largest count. -/
structure microseconds where
  count : Int
  deriving DecidableEq, Repr

/-- The sentinel `fc::microseconds::maximum()` -/
def microseconds.maximum : microseconds := ⟨0x7fffffffffffffff⟩

/-- The type `struct trace_api_plugin_impl` -/
structure trace_api_plugin_impl where
  minimum_irreversible_trace_history : microseconds := microseconds.maximum
  deriving DecidableEq

/-- The member `trace_api_plugin_impl::plugin_initialize` -/
def trace_api_plugin_impl.plugin_initialize (self : trace_api_plugin_impl)
    (options : variables_map) : Except exception trace_api_plugin_impl :=
  if options.count "trace-minimum-irreversible-history-us" ≠ 0 then do
    let value ← (← options.at "trace-minimum-irreversible-history-us").as_uint64
    if value = to_uint64 (-1) then
      pure { self with minimum_irreversible_trace_history := microseconds.maximum }
    else if value ≥ to_uint64 0 then
      pure { self with minimum_irreversible_trace_history := ⟨to_int64 value⟩ }
    else
      throw (.plugin_config_exception
        "trace-minimum-irreversible-history-us must be either a positive number or -1")
  else
    pure self

/-! ### trace_api_rpc_plugin_impl -/

/-- The callees of `trace_api_rpc_plugin_impl::plugin_initialize` that live in
`configuration_utils.hpp`, `chain::name` and `abi_data_handler`: each of the
three parsing steps may throw; `add_abi` registers the mapping. `N` is
`chain::name`, `A` is `chain::abi_def`, `H` is `abi_data_handler`. -/
structure abi_provider (N A H : Type) where
  /-- The call `parse_kv_pairs(entry)` -/
  parse_kv_pairs : String → Except exception (String × String)
  /-- The constructor `chain::name(kv.first)` -/
  name : String → Except exception N
  /-- The call `abi_def_from_file_or_str(kv.second, data_dir)` -/
  abi_def_from_file_or_str : String → path → Except exception A
  /-- The call `std::make_shared<abi_data_handler>(...)`: a handler with no ABI. -/
  make_handler : H
  /-- The member `abi_data_handler::add_abi` -/
  add_abi : H → N → A → H

/-- The type `struct trace_api_rpc_plugin_impl` -/
structure trace_api_rpc_plugin_impl (H : Type) where
  data_handler : H

/-- The three parsing steps of the `try` block for one `entry` of
`trace-rpc-abi`: `parse_kv_pairs`, `chain::name` and
`abi_def_from_file_or_str`, in this order. -/
def parse_entry {N A H : Type} (p : abi_provider N A H) (app : application)
    (entry : String) : Except exception (N × A) := do
  let kv ← p.parse_kv_pairs entry
  let account ← p.name kv.1
  let abi ← p.abi_def_from_file_or_str kv.2 app.data_dir
  pure (account, abi)

/-- The body of the `try` block for one `entry` of `trace-rpc-abi`. The
`catch (...)` handler logs the entry and rethrows, so the exception of the
failing step is the exception of the block. -/
def add_entry {N A H : Type} (p : abi_provider N A H) (app : application)
    (data_handler : H) (entry : String) : Except exception H := do
  let r ← parse_entry p app entry
  pure (p.add_abi data_handler r.1 r.2)

/-- Whether `entry` parses as `<account-name>=<abi-def>`. -/
def entry_parses {N A H : Type} (p : abi_provider N A H) (app : application)
    (entry : String) : Bool :=
  match parse_entry p app entry with
  | .ok _ => true
  | .error _ => false

/-- The `for (const auto& entry : key_value_pairs)` loop. -/
def add_entries {N A H : Type} (p : abi_provider N A H) (app : application) :
    H → List String → Except exception H
  | data_handler, [] => .ok data_handler
  | data_handler, entry :: rest =>
    match add_entry p app data_handler entry with
    | .ok h => add_entries p app h rest
    | .error e => .error e

/-- The member `trace_api_rpc_plugin_impl::plugin_initialize` -/
def trace_api_rpc_plugin_impl.plugin_initialize {N A H : Type}
    (p : abi_provider N A H) (app : application) (options : variables_map) :
    Except exception (trace_api_rpc_plugin_impl H) := do
  let data_handler := p.make_handler
  if options.count "trace-rpc-abi" ≠ 0 then
    EOS_ASSERT (options.count "trace-no-abis" == 0)
      "Trace API is configured with ABIs however trace-no-abis is set"
    let key_value_pairs ← options.get_strings "trace-rpc-abi"
    let data_handler ← add_entries p app data_handler key_value_pairs
    pure ⟨data_handler⟩
  else
    EOS_ASSERT (options.count "trace-no-abis" != 0)
      "Trace API is not configured with ABIs and trace-no-abis is not set"
    pure ⟨data_handler⟩


/-! ### Concrete collaborators, used to evaluate the embedding -/

/-- A POSIX-like application: data directory `/data`, a path is relative
when it does not start with `/`. -/
def sample_application : application where
  data_dir := "/data"
  is_relative p := decide (p.data.head? ≠ some '/')
  join a b := a ++ "/" ++ b

/-- A sample of the parsing collaborators: an entry is `key=value` with a
non-empty key of at most 13 characters and a non-empty value; the handler is
the list of registered pairs. -/
def sample_provider : abi_provider String String (List (String × String)) where
  parse_kv_pairs entry :=
    match entry.data.span (fun c => c != '=') with
    | (_, []) => .error (.plugin_config_exception "Missing \"=\"")
    | ([], _ :: _) => .error (.plugin_config_exception "Missing Key")
    | (_ :: _, [_]) => .error (.plugin_config_exception "Missing Value")
    | (k, _ :: v) => .ok (String.mk k, String.mk v)
  name s := if s.length ≤ 13 then .ok s else .error (.failure "name is longer than 13 characters")
  abi_def_from_file_or_str s _ := .ok s
  make_handler := []
  add_abi h n a := h ++ [(n, a)]

/-! ## Part II: the trace record model and the binary codec

`trace_converter` (`pack`, `unpack`, `prune_traces`) and
`state_history_traces_log` are called by `unittests/state_history_tests.cpp`
but their code is not among the sources; they are modelled from the
specification (sections 3, 4.1, 4.2, 4.4 and 6). -/

/-- One octet. -/
abbrev byte := Fin 256

/-- The type `chain::bytes`: a buffer of octets. -/
abbrev bytes := List byte

/-- Modelled from the spec: the binary layout of `trace_converter`
(section 6); width in octets of a transaction id (a fixed-width hash). -/
def id_width : Nat := 32

/-- Modelled from the spec: `transaction_id_type`, the fixed-width hash that
identifies a transaction (section 3). -/
abbrev transaction_id_type := { d : bytes // d.length = id_width }

/-- Modelled from the spec: PrunableData (section 3), "a tagged variant:
either `full` (original signatures / packed context-free data present) or
`none` (already redacted)". -/
inductive prunable_data_t where
  | full (signatures : List bytes) (context_free_data : bytes)
  | none
  deriving DecidableEq, Repr

/-- Modelled from the spec: PartialTransaction (section 3), "the fields needed
to reconstruct the original transaction (expiration, reference block info,
actions, and a PrunableData section)". -/
structure partial_transaction where
  expiration : uint32_t
  ref_block_num : Fin (2 ^ 16)
  ref_block_id : uint32_t
  actions : List bytes
  prunable_data : prunable_data_t
  deriving DecidableEq, Repr

/-- Modelled from the spec: TransactionTrace (section 3), "a transaction id,
an execution status/receipt summary, and an optional PartialTransaction
payload". -/
structure transaction_trace where
  id : transaction_id_type
  status : byte
  partial_trx : Option partial_transaction
  deriving DecidableEq, Repr

/-- Modelled from the spec: `redact` (section 4.1): the trace with its
PrunableData set to `none`, everything else unchanged. -/
def redact (t : transaction_trace) : transaction_trace :=
  { t with partial_trx := t.partial_trx.map (fun p => { p with prunable_data := .none }) }

/-- The test helper `get_prunable_data_from_traces` of
`state_history_tests.cpp`: the prunable data of the first trace with the given
id; `none` when one of its `BOOST_REQUIRE` checks fails (no trace with the id,
or the trace carries no partial transaction). -/
def get_prunable_data_from_traces (traces : List transaction_trace)
    (id : transaction_id_type) : Option prunable_data_t :=
  match traces.find? (fun v => v.id = id) with
  | some trace_v0 =>
    match trace_v0.partial_trx with
    | some p => some p.prunable_data
    | Option.none => Option.none
  | Option.none => Option.none

/-! ### Readers and writers of the binary layout (section 6) -/

/-- Modelled from the spec: the binary layout of `trace_converter`
(section 6); a reader consumes a front part of the buffer and returns a value and the
rest of the buffer, or fails. -/
abbrev reader (α : Type) := StateT bytes Option α

/-- Modelled from the spec: the binary layout of `trace_converter`
(section 6); read one octet. -/
def read_byte : reader byte := fun x =>
  match x with
  | [] => none
  | b :: r => some (b, r)

/-- Modelled from the spec: the binary layout of `trace_converter`
(section 6); read exactly `n` octets. -/
def read_fixed (n : Nat) : reader bytes := fun x =>
  if n ≤ x.length then some (x.take n, x.drop n) else none

/-- Modelled from the spec: the binary layout of `trace_converter`
(section 6); fail unless the condition holds. -/
def require (c : Bool) : reader Unit := fun x =>
  if c then some ((), x) else none

/-- Modelled from the spec: the binary layout of `trace_converter`
(section 6); write a length or count as a variable-length unsigned integer: seven bits
per octet, low bits first, the high bit set on every octet but the last. -/
def write_varuint_aux : Nat → Nat → bytes
  | 0, _ => []
  | fuel + 1, n =>
    if h : n < 128 then [⟨n, by omega⟩]
    else ⟨n % 128 + 128, by omega⟩ :: write_varuint_aux fuel (n / 128)

/-- Modelled from the spec: the binary layout of `trace_converter`
(section 6); write a length or count as a variable-length unsigned integer. -/
def write_varuint (n : Nat) : bytes := write_varuint_aux (n + 1) n

/-- Modelled from the spec: the binary layout of `trace_converter`
(section 6); read a variable-length unsigned integer. -/
def read_varuint : reader Nat
  | [] => none
  | b :: r =>
    if b.val < 128 then some (b.val, r)
    else
      match read_varuint r with
      | some (v, r') => some (b.val - 128 + 128 * v, r')
      | none => none

/-- Modelled from the spec: the binary layout of `trace_converter`
(section 6); write the `w` low octets of `v`, low octet first. -/
def write_le : Nat → Nat → bytes
  | 0, _ => []
  | w + 1, v => ⟨v % 256, Nat.mod_lt _ (by norm_num)⟩ :: write_le w (v / 256)

/-- Modelled from the spec: the binary layout of `trace_converter`
(section 6); read a `w`-octet unsigned integer, low octet first. -/
def read_le : Nat → reader Nat
  | 0 => pure 0
  | w + 1 => do
    let b ← read_byte
    let v ← read_le w
    pure (b.val + 256 * v)

/-- Modelled from the spec: the binary layout of `trace_converter`
(section 6); read a `w`-octet unsigned integer into its bounded type. -/
def read_uint (w : Nat) (bound : Nat) : reader (Fin bound) := do
  let v ← read_le w
  if h : v < bound then pure ⟨v, h⟩ else failure

/-- Modelled from the spec: the binary layout of `trace_converter`
(section 6); write a length-prefixed octet string. -/
def write_blob (b : bytes) : bytes := write_varuint b.length ++ b

/-- Modelled from the spec: the binary layout of `trace_converter`
(section 6); read a length-prefixed octet string. -/
def read_blob : reader bytes := do
  let n ← read_varuint
  read_fixed n

/-- Modelled from the spec: the binary layout of `trace_converter`
(section 6); write the items of a sequence one after the other. -/
def write_items {α : Type} (w : α → bytes) : List α → bytes
  | [] => []
  | a :: rest => w a ++ write_items w rest

/-- Modelled from the spec: the binary layout of `trace_converter`
(section 6); read `n` items one after the other. -/
def read_items {α : Type} (p : reader α) : Nat → reader (List α)
  | 0 => pure []
  | n + 1 => do
    let a ← p
    let rest ← read_items p n
    pure (a :: rest)

/-- Modelled from the spec: the binary layout of `trace_converter`
(section 6); write a length-prefixed sequence. -/
def write_list {α : Type} (w : α → bytes) (l : List α) : bytes :=
  write_varuint l.length ++ write_items w l

/-- Modelled from the spec: the binary layout of `trace_converter`
(section 6); read a length-prefixed sequence. -/
def read_list {α : Type} (p : reader α) : reader (List α) := do
  let n ← read_varuint
  read_items p n

/-- Modelled from the spec: the binary layout of `trace_converter`
(section 6); variant tag of PrunableData `none`. -/
def tag_none : byte := 0

/-- Modelled from the spec: the binary layout of `trace_converter`
(section 6); variant tag of PrunableData `full`. -/
def tag_full : byte := 1

/-- Modelled from the spec: the binary layout of `trace_converter`
(section 6); the content of a `full` PrunableData: "signature list + context-free data
bytes" (section 6). -/
def write_full_body (signatures : List bytes) (context_free_data : bytes) : bytes :=
  write_list write_blob signatures ++ write_blob context_free_data

/-- Modelled from the spec: the layout of PrunableData (section 6), a tagged
variant `[tag][size][size octets]`. The `full` variant carries the signature
list and the context-free data; the `none` variant carries a placeholder
(empty when a `none` is packed, as long as the content it replaced when a
`full` was pruned). -/
def write_prunable : prunable_data_t → bytes
  | .full signatures context_free_data =>
    tag_full :: write_blob (write_full_body signatures context_free_data)
  | .none => tag_none :: write_blob []

/-- Modelled from the spec: the binary layout of `trace_converter`
(section 6); read the content of a `full` PrunableData; the content must be used up. -/
def read_full_body : reader prunable_data_t := do
  let signatures ← read_list read_blob
  let context_free_data ← read_blob
  let rest ← get
  require rest.isEmpty
  pure (.full signatures context_free_data)

/-- Modelled from the spec: reading PrunableData. A `none` placeholder is
skipped; an unknown tag or a `full` content that does not parse makes the
record corrupt. -/
def read_prunable : reader prunable_data_t := do
  let tag ← read_byte
  let body ← read_blob
  if tag = tag_full then
    match read_full_body body with
    | some (pd, _) => pure pd
    | none => failure
  else if tag = tag_none then pure .none
  else failure

/-- Modelled from the spec: the binary layout of `trace_converter`
(section 6); the part of a trace that precedes its PrunableData. -/
structure trace_head where
  id : transaction_id_type
  status : byte
  partial_head : Option (uint32_t × Fin (2 ^ 16) × uint32_t × List bytes)

/-- Modelled from the spec: the binary layout of `trace_converter`
(section 6); variant tag of a transaction trace (version 0). -/
def tag_trace_v0 : byte := 0

/-- Modelled from the spec: the binary layout of `trace_converter`
(section 6); write the part of a trace that precedes its PrunableData: the variant
tag, the id, the status tag, the presence flag of the partial transaction and
its expiration, reference block info and actions. -/
def write_trace_head (t : transaction_trace) : bytes :=
  tag_trace_v0 :: t.id.val ++ t.status ::
    (match t.partial_trx with
     | Option.none => [(0 : byte)]
     | some p =>
       (1 : byte) :: write_le 4 p.expiration.val ++ write_le 2 p.ref_block_num.val ++
         write_le 4 p.ref_block_id.val ++ write_list write_blob p.actions)

/-- Modelled from the spec: the layout of one TransactionTrace (section 6),
"a tagged-variant record containing: transaction id (fixed-width hash),
status tag, optional PartialTransaction block (itself containing a
PrunableData tagged-variant)". -/
def write_trace (t : transaction_trace) : bytes :=
  write_trace_head t ++
    (match t.partial_trx with
     | Option.none => []
     | some p => write_prunable p.prunable_data)

/-- Modelled from the spec: the binary layout of `trace_converter`
(section 6); read the part of a trace that precedes its PrunableData. -/
def read_trace_head : reader trace_head := do
  let tag ← read_byte
  require (tag = tag_trace_v0)
  let d ← read_fixed id_width
  if h : d.length = id_width then
    let status ← read_byte
    let present ← read_byte
    if present = 1 then
      let expiration ← read_uint 4 (2 ^ 32)
      let ref_block_num ← read_uint 2 (2 ^ 16)
      let ref_block_id ← read_uint 4 (2 ^ 32)
      let actions ← read_list read_blob
      pure ⟨⟨d, h⟩, status, some (expiration, ref_block_num, ref_block_id, actions)⟩
    else if present = 0 then
      pure ⟨⟨d, h⟩, status, Option.none⟩
    else failure
  else failure

/-- Modelled from the spec: the binary layout of `trace_converter`
(section 6); read one TransactionTrace. -/
def read_trace : reader transaction_trace := do
  let h ← read_trace_head
  match h.partial_head with
  | Option.none => pure ⟨h.id, h.status, Option.none⟩
  | some (expiration, ref_block_num, ref_block_id, actions) =>
    let pd ← read_prunable
    pure ⟨h.id, h.status, some ⟨expiration, ref_block_num, ref_block_id, actions, pd⟩⟩

/-- Modelled from the spec: the serialized BlockTraceSet (section 6), "a
length-prefixed sequence of TransactionTrace". -/
def write_traces (traces : List transaction_trace) : bytes :=
  write_list write_trace traces

/-- Modelled from the spec: the binary layout of `trace_converter`
(section 6); read a serialized BlockTraceSet. -/
def read_traces : reader (List transaction_trace) := read_list read_trace

/-! ### In-place pruning of a serialized trace set (section 4.2) -/

/-- Modelled from the spec: the binary layout of `trace_converter`
(section 6); copy the octets of one PrunableData `[tag][size][size octets]` as they
are. -/
def copy_prunable : reader bytes := do
  let tag ← read_byte
  let x ← get
  let n ← read_varuint
  let r ← get
  let body ← read_fixed n
  pure (tag :: x.take (x.length - r.length) ++ body)

/-- Modelled from the spec: overwrite one PrunableData region "with a `none`
marker of identical byte length" (section 4.2): a `full` region keeps its
size field, its tag becomes `none` and its content becomes placeholder zeros;
a region that is already `none` is left as it is. -/
def prune_prunable : reader bytes := do
  let tag ← read_byte
  let x ← get
  let n ← read_varuint
  let r ← get
  let body ← read_fixed n
  if tag = tag_full then
    pure (tag_none :: x.take (x.length - r.length) ++ List.replicate n (0 : byte))
  else
    pure (tag :: x.take (x.length - r.length) ++ body)

/-- Modelled from the spec: scan one TransactionTrace; when its id is in
`ids` its PrunableData region is overwritten, otherwise its octets are copied.
Returns the octets of the trace after the scan and the id of the trace. -/
def prune_trace (ids : List transaction_id_type) : reader (bytes × transaction_id_type) := do
  let x ← get
  let h ← read_trace_head
  let r ← get
  let head := x.take (x.length - r.length)
  match h.partial_head with
  | Option.none => pure (head, h.id)
  | some _ =>
    let out ← if h.id ∈ ids then prune_prunable else copy_prunable
    pure (head ++ out, h.id)

/-- Modelled from the spec: scan a serialized BlockTraceSet, pruning the
traces whose id is in `ids`. Returns the octets after the scan and the ids of
the traces met, in order. -/
def prune_payload (ids : List transaction_id_type) :
    reader (bytes × List transaction_id_type) := do
  let x ← get
  let n ← read_varuint
  let r ← get
  let items ← read_items (prune_trace ids) n
  pure (x.take (x.length - r.length) ++ (items.map Prod.fst).flatten, items.map Prod.snd)

/-! ### Packed records (sections 4.2 and 6) -/

/-- The type `state_history::compression_type`. -/
inductive compression_type where
  | none
  | zlib
  deriving DecidableEq, Repr

/-- Modelled from the spec: the binary layout of `trace_converter`
(section 6); the one-octet compression tag that starts a packed record. -/
def compression_tag : compression_type → byte
  | .none => 0
  | .zlib => 1

/-- The compression library (zlib): it is outside the repository and is taken
as a pair of functions, `compress` on a whole payload and `decompress` on a
whole payload. -/
structure compression_library where
  compress : bytes → bytes
  decompress : bytes → Option bytes

/-- Decompression returns what was compressed. -/
def compression_library.lossless (z : compression_library) : Prop :=
  ∀ x, z.decompress (z.compress x) = some x

/-- The design requirement of section 4.2 on the compression scheme:
"recompression must reproduce byte-identical length", that is, inputs of
equal length compress to outputs of equal length. -/
def compression_library.length_stable (z : compression_library) : Prop :=
  ∀ x y, x.length = y.length → (z.compress x).length = (z.compress y).length

/-- A compression scheme that stores the input behind a two-octet stream
header; it is lossless and length-stable. -/
def stored_zlib : compression_library where
  compress x := (0x78 : byte) :: (0x01 : byte) :: x
  decompress x :=
    match x with
    | a :: b :: rest => if a = 0x78 ∧ b = 0x01 then some rest else none
    | _ => none

/-- Errors of the codec and of the log (section 7). -/
inductive trace_error where
  /-- CorruptRecordError: header, length or tag inconsistency. -/
  | corrupt_record
  /-- NotFoundError: the block number has no index entry. -/
  | not_found
  deriving DecidableEq, Repr

/-- Modelled from the spec: the binary layout of `trace_converter`
(section 6); the payload of a packed record: the serialization itself, or its
compressed form. -/
def encode_payload (z : compression_library) (compression : compression_type)
    (serialization : bytes) : bytes :=
  match compression with
  | .none => serialization
  | .zlib => z.compress serialization

/-- Modelled from the spec: the binary layout of `trace_converter`
(section 6); the packed record layout `[compression_tag: 1 byte][payload]`. -/
def frame (z : compression_library) (compression : compression_type)
    (serialization : bytes) : bytes :=
  compression_tag compression :: encode_payload z compression serialization

/-- Modelled from the spec: `trace_converter::pack` (section 4.2, `pack`).
With `include_signatures = false` every trace is redacted before it is
serialized. -/
def pack (z : compression_library) (include_signatures : Bool)
    (traces : List transaction_trace) (compression : compression_type) : bytes :=
  frame z compression
    (write_traces (if include_signatures then traces else traces.map redact))

/-- Modelled from the spec: the binary layout of `trace_converter`
(section 6); the serialization held by a packed record: the payload, decompressed when
the compression tag says so. -/
def decode_payload (z : compression_library) (record : bytes) :
    Except trace_error (compression_type × bytes) :=
  match record with
  | [] => .error .corrupt_record
  | tag :: payload =>
    if tag = compression_tag .none then .ok (.none, payload)
    else if tag = compression_tag .zlib then
      match z.decompress payload with
      | some x => .ok (.zlib, x)
      | none => .error .corrupt_record
    else .error .corrupt_record

/-- Modelled from the spec: `trace_converter::unpack` (section 4.2,
`unpack`): "auto-detects compression from the record header, decompresses,
and deserializes", failing with CorruptRecordError. -/
def unpack (z : compression_library) (record : bytes) :
    Except trace_error (List transaction_trace) := do
  let (_, serialization) ← decode_payload z record
  match read_traces serialization with
  | some (traces, _) => pure traces
  | none => throw .corrupt_record

/-- Modelled from the spec: `trace_converter::prune_traces` (section 4.2,
`prune_in_place`). The record is decompressed when it is compressed, the
PrunableData region of every trace whose id is in `ids` is overwritten, and
the result is recompressed. Returns the record after pruning and the subset
of `ids` not found in the trace set. An empty `ids` is a no-op. -/
def prune_traces (z : compression_library) (record : bytes)
    (ids : List transaction_id_type) :
    Except trace_error (bytes × List transaction_id_type) :=
  if ids.isEmpty then pure (record, [])
  else do
    let (compression, serialization) ← decode_payload z record
    match prune_payload ids serialization with
    | some ((out, found), rest) =>
      pure (frame z compression (out ++ rest), ids.filter (fun id => id ∉ found))
    | none => throw .corrupt_record

/-- Sample transaction id: `id_width` copies of one octet. -/
def sample_id (b : byte) : transaction_id_type :=
  ⟨List.replicate id_width b, List.length_replicate _ _⟩

/-- Sample trace with `full` prunable data: two signatures and context-free
data. -/
def sample_trace_full : transaction_trace :=
  ⟨sample_id 1, 0, some ⟨100, 7, 9, [[1, 2, 3]], .full [[5, 5], [6]] [9, 9, 9]⟩⟩

/-- Sample trace without a partial transaction. -/
def sample_trace_bare : transaction_trace :=
  ⟨sample_id 2, 1, Option.none⟩

/-! ### Properties of readers, writers and scanners -/

/-- A reader is local when a successful read uses a front part of the buffer
only: the same front part followed by any other rest reads the same value. -/
def consumes {α : Type} (p : reader α) : Prop :=
  ∀ x a rest, p x = some (a, rest) →
    ∃ front, x = front ++ rest ∧ ∀ r, p (front ++ r) = some (a, r)

/-- The reader `p` reads back what the writer `w` wrote, whatever follows. -/
def reads_back {α : Type} (p : reader α) (w : α → bytes) : Prop :=
  ∀ a r, p (w a ++ r) = some (a, r)

/-- The trace after `prune_traces` with `ids`: redacted when its id is in
`ids`, unchanged otherwise. -/
def pruned_trace (ids : List transaction_id_type) (t : transaction_trace) :
    transaction_trace :=
  if t.id ∈ ids then redact t else t

/-- A packed record that holds the trace set `T`: the compression tag
followed by the serialization of `T` (as written by `pack`, or as left by
`prune_traces`), compressed when the tag says so. -/
def packed_record (z : compression_library) (record : bytes)
    (T : List transaction_trace) : Prop :=
  ∃ (C : compression_type) (x rest : bytes),
    record = frame z C x ∧ read_traces x = some (T, rest)

/-! ## Part II: the slice-partitioned log (section 4.4) -/

/-- Modelled from the spec: SliceIndexEntry (section 3), one record
`[block_num, offset, length]` of a slice's index file. -/
structure slice_index_entry where
  block_num : Nat
  offset : Nat
  length : Nat
  deriving DecidableEq, Repr

/-- Modelled from the spec: the slice file pair (section 6): the data file
`<first_block_num>-<stride>.log` and the index file
`<first_block_num>-<stride>.index`, the latter as its sequence of entries. -/
structure slice_file where
  data : bytes
  index : List slice_index_entry
  deriving DecidableEq, Repr

/-- Modelled from the spec: the files of `state_history_traces_log`
(section 4.4); the name `<first_block_num>-<stride>` of a slice file pair. -/
abbrev slice_name := Nat × Nat

/-- Modelled from the spec: the files of `state_history_traces_log`
(section 4.4); the content of the root directory of a log: its slice file pairs. -/
abbrev directory := List (slice_name × slice_file)

/-- Modelled from the spec: the files of `state_history_traces_log`
(section 4.4); read a slice file pair; a pair that does not exist reads as empty. -/
def directory.read (d : directory) (n : slice_name) : slice_file :=
  (d.lookup n).getD ⟨[], []⟩

/-- Modelled from the spec: the files of `state_history_traces_log`
(section 4.4); create or replace a slice file pair. -/
def directory.write (d : directory) (n : slice_name) (f : slice_file) : directory :=
  (n, f) :: d.filter fun e => e.1 != n

/-- Modelled from the spec: LogState (section 3): the root directory, the
slice stride and the head slice, with the two `pack` options that `store`
uses. -/
structure log_state where
  dir : directory
  stride : Nat
  include_signatures : Bool
  compression : compression_type
  head : Option Nat
  deriving DecidableEq

/-- Modelled from the spec: the files of `state_history_traces_log`
(section 4.4); the first block number of the slice that owns `block_num`:
`stride * (block_num / stride)` (section 3). -/
def slice_of (stride block_num : Nat) : Nat := stride * (block_num / stride)

/-- Modelled from the spec: recovery on open (section 4.4). When the data file
is shorter than the end of the last index entry, the trailing index entries
that cannot be read in full are dropped and the data file is truncated to the
end of the last entry kept. -/
def recover (f : slice_file) : slice_file :=
  match f.index.getLast? with
  | Option.none => f
  | some last =>
    if last.offset + last.length ≤ f.data.length then f
    else
      let verified :=
        (f.index.reverse.dropWhile fun e => f.data.length < e.offset + e.length).reverse
      { index := verified
        data :=
          match verified.getLast? with
          | Option.none => []
          | some e => f.data.take (e.offset + e.length) }

/-- Modelled from the spec: opening a log on a directory (section 3,
LogState): the head is the existing slice of this stride with the greatest
first block number, and its tail is validated by `recover`. -/
def open_log (dir : directory) (stride : Nat) (include_signatures : Bool)
    (compression : compression_type) : log_state :=
  let firsts := (dir.filter fun e => e.1.2 = stride).map fun e => e.1.1
  match firsts.max? with
  | Option.none =>
    { dir := dir, stride := stride, include_signatures := include_signatures,
      compression := compression, head := Option.none }
  | some h =>
    { dir := dir.write (h, stride) (recover (dir.read (h, stride))), stride := stride,
      include_signatures := include_signatures, compression := compression, head := some h }

/-- Modelled from the spec: `store` (section 4.4): pack the traces, append the
bytes to the data file of the head slice and an index entry to its index
file; when `block_num` lies outside the head slice, the slice that owns
`block_num` becomes the head first. -/
def store (z : compression_library) (L : log_state) (block_num : Nat)
    (traces : List transaction_trace) : log_state :=
  let slice := slice_of L.stride block_num
  let f := L.dir.read (slice, L.stride)
  let record := pack z L.include_signatures traces L.compression
  let f' : slice_file :=
    { data := f.data ++ record
      index := f.index ++ [⟨block_num, f.data.length, record.length⟩] }
  { L with dir := L.dir.write (slice, L.stride) f', head := some slice }

/-- Modelled from the spec: the files of `state_history_traces_log`
(section 4.4); locate the stored record of a block: the owning slice, its index entry
and exactly the byte range the entry names. -/
def read_record (L : log_state) (block_num : Nat) :
    Except trace_error (slice_file × slice_index_entry × bytes) :=
  let f := L.dir.read (slice_of L.stride block_num, L.stride)
  match f.index.find? fun e => e.block_num = block_num with
  | Option.none => .error .not_found
  | some e =>
    if e.offset + e.length ≤ f.data.length then
      .ok (f, e, (f.data.drop e.offset).take e.length)
    else .error .corrupt_record

/-- Modelled from the spec: `prune_transactions` (section 4.4): read the raw
record, prune it in place and write the bytes back at the same offset.
Returns the log and the ids not found. -/
def prune_transactions (z : compression_library) (L : log_state) (block_num : Nat)
    (ids : List transaction_id_type) :
    Except trace_error (log_state × List transaction_id_type) := do
  let (f, e, record) ← read_record L block_num
  let (out, remaining) ← prune_traces z record ids
  let f' : slice_file :=
    { f with data := f.data.take e.offset ++ out ++ f.data.drop (e.offset + out.length) }
  pure ({ L with dir := L.dir.write (slice_of L.stride block_num, L.stride) f' }, remaining)

/-- No index entry is for block `b`. -/
def directory.lacks (d : directory) (b : Nat) : Prop :=
  ∀ n, ∀ e ∈ (d.read n).index, e.block_num ≠ b

/-- The record stored for block `b` is `R`: the slice that owns `b` has an
index entry for `b` and the byte range it names holds `R`. -/
def directory.holds (d : directory) (stride b : Nat) (R : bytes) : Prop :=
  ∃ e, (d.read (slice_of stride b, stride)).index.find? (fun e => e.block_num = b) = some e ∧
    e.offset + e.length ≤ (d.read (slice_of stride b, stride)).data.length ∧
    ((d.read (slice_of stride b, stride)).data.drop e.offset).take e.length = R


theorem to_uint64_neg_one : to_uint64 (-1) = ⟨2 ^ 64 - 1, by norm_num⟩ := by
  decide

theorem to_uint64_zero : to_uint64 0 = ⟨0, by norm_num⟩ := by
  decide

theorem count_eq_zero_iff (options : variables_map) (key : String) :
    options.count key = 0 ↔ options.lookup key = none := by
  unfold variables_map.count
  cases h : options.lookup key <;> simp

theorem count_of_lookup {options : variables_map} {key : String} {v : variable_value}
    (h : options.lookup key = some v) : options.count key = 1 := by
  unfold variables_map.count
  rw [h]

/-- The loop over the entries succeeds exactly when every entry parses. -/
theorem add_entries_ok_iff {N A H : Type} (p : abi_provider N A H) (app : application)
    (entries : List String) (h : H) :
    (∃ r, add_entries p app h entries = .ok r) ↔
      ∀ entry ∈ entries, entry_parses p app entry = true := by
  induction entries generalizing h with
  | nil => simp [add_entries]
  | cons entry rest ih =>
    simp only [add_entries, add_entry, entry_parses, List.mem_cons, forall_eq_or_imp]
    cases hp : parse_entry p app entry with
    | error e => simp [bind, Except.bind]
    | ok r =>
      simp only [bind, Except.bind, pure, Except.pure, true_and]
      exact ih _

/-- The loop over the entries ends with the exception of the first entry
that does not parse. -/
theorem add_entries_error {N A H : Type} (p : abi_provider N A H) (app : application)
    (before : List String) (entry : String) (after : List String) (e : exception) (h : H)
    (hbefore : ∀ x ∈ before, entry_parses p app x = true)
    (hentry : parse_entry p app entry = .error e) :
    add_entries p app h (before ++ entry :: after) = .error e := by
  induction before generalizing h with
  | nil => simp [add_entries, add_entry, hentry, bind, Except.bind]
  | cons x rest ih =>
    have hx : entry_parses p app x = true := hbefore x (by simp)
    simp only [entry_parses] at hx
    simp only [List.cons_append, add_entries, add_entry]
    cases hp : parse_entry p app x with
    | error e2 => rw [hp] at hx; simp at hx
    | ok r =>
      simp only [bind, Except.bind, pure, Except.pure]
      exact ih _ (fun y hy => hbefore y (by simp [hy]))

/-- C7: `trace_api_rpc_plugin_impl::plugin_initialize` requires exactly one of
`trace-rpc-abi` and `trace-no-abis`. With both, and with neither, it raises
`plugin_config_exception`. With only `trace-no-abis` it succeeds and the data
handler has no ABI. With only `trace-rpc-abi` it succeeds exactly when every
entry parses, and the exception of the first entry that does not parse leaves
`plugin_initialize`. -/
theorem rpc_plugin_initialize_requires_exactly_one {N A H : Type}
    (p : abi_provider N A H) (app : application) (options : variables_map) :
    (options.lookup "trace-rpc-abi" ≠ none → options.lookup "trace-no-abis" ≠ none →
      trace_api_rpc_plugin_impl.plugin_initialize p app options =
        .error (.plugin_config_exception
          "Trace API is configured with ABIs however trace-no-abis is set")) ∧
    (options.lookup "trace-rpc-abi" = none → options.lookup "trace-no-abis" = none →
      trace_api_rpc_plugin_impl.plugin_initialize p app options =
        .error (.plugin_config_exception
          "Trace API is not configured with ABIs and trace-no-abis is not set")) ∧
    (options.lookup "trace-rpc-abi" = none → options.lookup "trace-no-abis" ≠ none →
      trace_api_rpc_plugin_impl.plugin_initialize p app options = .ok ⟨p.make_handler⟩) ∧
    (∀ entries : List String,
      options.lookup "trace-rpc-abi" = some (.of_strings entries) →
      options.lookup "trace-no-abis" = none →
      ((∃ r, trace_api_rpc_plugin_impl.plugin_initialize p app options = .ok r) ↔
        ∀ entry ∈ entries, entry_parses p app entry = true) ∧
      (∀ (before : List String) (entry : String) (after : List String) (e : exception),
        entries = before ++ entry :: after →
        (∀ x ∈ before, entry_parses p app x = true) →
        parse_entry p app entry = .error e →
        trace_api_rpc_plugin_impl.plugin_initialize p app options = .error e)) := by
  refine ⟨?_, ?_, ?_, ?_⟩
  · intro h1 h2
    have c1 : options.count "trace-rpc-abi" ≠ 0 := by
      rw [Ne, count_eq_zero_iff]; exact h1
    have c2 : options.count "trace-no-abis" ≠ 0 := by
      rw [Ne, count_eq_zero_iff]; exact h2
    simp [trace_api_rpc_plugin_impl.plugin_initialize, c1, c2, EOS_ASSERT, bind, Except.bind]
  · intro h1 h2
    have c1 : options.count "trace-rpc-abi" = 0 := (count_eq_zero_iff _ _).2 h1
    have c2 : options.count "trace-no-abis" = 0 := (count_eq_zero_iff _ _).2 h2
    simp [trace_api_rpc_plugin_impl.plugin_initialize, c1, c2, EOS_ASSERT, bind, Except.bind]
  · intro h1 h2
    have c1 : options.count "trace-rpc-abi" = 0 := (count_eq_zero_iff _ _).2 h1
    have c2 : options.count "trace-no-abis" ≠ 0 := by
      rw [Ne, count_eq_zero_iff]; exact h2
    simp [trace_api_rpc_plugin_impl.plugin_initialize, c1, c2, EOS_ASSERT, bind, Except.bind,
      pure, Except.pure]
  · intro entries h1 h2
    have c1 : options.count "trace-rpc-abi" = 1 := count_of_lookup h1
    have c2 : options.count "trace-no-abis" = 0 := (count_eq_zero_iff _ _).2 h2
    have hinit : trace_api_rpc_plugin_impl.plugin_initialize p app options =
        (add_entries p app p.make_handler entries).map (fun h => ⟨h⟩) := by
      simp only [trace_api_rpc_plugin_impl.plugin_initialize, c1, c2, EOS_ASSERT, bind,
        Except.bind, variables_map.get_strings, h1, variable_value.as_strings]
      cases add_entries p app p.make_handler entries <;> rfl
    rw [hinit]
    constructor
    · rw [← add_entries_ok_iff p app entries p.make_handler]
      constructor
      · rintro ⟨r, hr⟩
        cases hadd : add_entries p app p.make_handler entries with
        | error e => rw [hadd] at hr; simp [Except.map] at hr
        | ok h => exact ⟨h, rfl⟩
      · rintro ⟨h, hh⟩
        exact ⟨⟨h⟩, by rw [hh]; rfl⟩
    · intro before entry after e hsplit hbefore hentry
      rw [hsplit, add_entries_error p app before entry after e _ hbefore hentry]
      rfl

/-- Witness for C7 on concrete option maps: both options, neither, only
`trace-no-abis`, and only `trace-rpc-abi` with a well-formed and a malformed
entry. -/
theorem rpc_plugin_initialize_requires_exactly_one_witness :
    trace_api_rpc_plugin_impl.plugin_initialize sample_provider sample_application
        [("trace-rpc-abi", .of_strings ["eosio=abi"]), ("trace-no-abis", .untyped)] =
      .error (.plugin_config_exception
        "Trace API is configured with ABIs however trace-no-abis is set") ∧
    trace_api_rpc_plugin_impl.plugin_initialize sample_provider sample_application [] =
      .error (.plugin_config_exception
        "Trace API is not configured with ABIs and trace-no-abis is not set") ∧
    trace_api_rpc_plugin_impl.plugin_initialize sample_provider sample_application
        [("trace-no-abis", .untyped)] = .ok ⟨[]⟩ ∧
    trace_api_rpc_plugin_impl.plugin_initialize sample_provider sample_application
        [("trace-rpc-abi", .of_strings ["eosio=abi", "noequals"])] =
      .error (.plugin_config_exception "Missing \"=\"") :=
  ⟨(rpc_plugin_initialize_requires_exactly_one sample_provider sample_application
      [("trace-rpc-abi", .of_strings ["eosio=abi"]), ("trace-no-abis", .untyped)]).1
      (by decide) (by decide),
   (rpc_plugin_initialize_requires_exactly_one sample_provider sample_application []).2.1
      (by decide) (by decide),
   (rpc_plugin_initialize_requires_exactly_one sample_provider sample_application
      [("trace-no-abis", .untyped)]).2.2.1 (by decide) (by decide),
   ((rpc_plugin_initialize_requires_exactly_one sample_provider sample_application
      [("trace-rpc-abi", .of_strings ["eosio=abi", "noequals"])]).2.2.2
      ["eosio=abi", "noequals"] (by decide) (by decide)).2
      ["eosio=abi"] "noequals" [] _ (by decide) (by decide) rfl⟩

/-- C8 (as stated) fails: the 64-bit value `2^63 - 1`, which is not `-1`, also
leaves `minimum_irreversible_trace_history` equal to the sentinel
`fc::microseconds::maximum()`; and the value `2^63` leaves a duration of
`-2^63` microseconds, which is neither `2^63` microseconds nor non-negative. -/
theorem minimum_irreversible_history_counterexample :
    (trace_api_plugin_impl.plugin_initialize {}
        [("trace-minimum-irreversible-history-us", .of_uint64 ⟨2 ^ 63 - 1, by norm_num⟩)] =
      .ok ⟨microseconds.maximum⟩ ∧
     (⟨2 ^ 63 - 1, by norm_num⟩ : uint64_t) ≠ to_uint64 (-1)) ∧
    trace_api_plugin_impl.plugin_initialize {}
        [("trace-minimum-irreversible-history-us", .of_uint64 ⟨2 ^ 63, by norm_num⟩)] =
      .ok ⟨⟨-(2 ^ 63)⟩⟩ := by
  refine ⟨⟨?_, by decide⟩, ?_⟩ <;> rfl

/-- C8 (amended): when the option holds `-1` (that is, `2^64 - 1`)
`plugin_initialize` stores the sentinel `fc::microseconds::maximum()`; when it
holds a value `v < 2^63` it stores a duration of exactly `v` microseconds,
which is non-negative; and among these values the stored duration equals the
sentinel exactly for `2^64 - 1` and `2^63 - 1`. -/
theorem minimum_irreversible_history_of_option (self : trace_api_plugin_impl)
    (options : variables_map) (v : uint64_t)
    (hopt : options.lookup "trace-minimum-irreversible-history-us" = some (.of_uint64 v))
    (hv : v.val = 2 ^ 64 - 1 ∨ v.val < 2 ^ 63) :
    ∃ s, trace_api_plugin_impl.plugin_initialize self options = .ok s ∧
      (v.val = 2 ^ 64 - 1 → s.minimum_irreversible_trace_history = microseconds.maximum) ∧
      (v.val < 2 ^ 63 →
        s.minimum_irreversible_trace_history.count = (v.val : Int) ∧
        0 ≤ s.minimum_irreversible_trace_history.count) ∧
      (s.minimum_irreversible_trace_history = microseconds.maximum ↔
        v.val = 2 ^ 64 - 1 ∨ v.val = 2 ^ 63 - 1) := by
  have hc : options.count "trace-minimum-irreversible-history-us" = 1 := count_of_lookup hopt
  by_cases h1 : v = to_uint64 (-1)
  · refine ⟨{ self with minimum_irreversible_trace_history := microseconds.maximum }, ?_, ?_, ?_, ?_⟩
    · simp [trace_api_plugin_impl.plugin_initialize, hc, variables_map.at, hopt,
        variable_value.as_uint64, bind, Except.bind, h1, pure, Except.pure]
    · intro _; rfl
    · intro h2
      rw [h1, to_uint64_neg_one] at h2
      norm_num at h2
    · constructor
      · intro _
        left
        rw [h1, to_uint64_neg_one]
      · intro _; rfl
  · have hne : v.val ≠ 2 ^ 64 - 1 := by
      intro h
      apply h1
      rw [to_uint64_neg_one]
      exact Fin.ext h
    have hge : v ≥ to_uint64 0 := by
      rw [to_uint64_zero]
      exact Fin.zero_le _
    have hlt : v.val < 2 ^ 63 := by
      rcases hv with h | h
      · exact absurd h hne
      · exact h
    refine ⟨{ self with minimum_irreversible_trace_history := ⟨to_int64 v⟩ }, ?_, ?_, ?_, ?_⟩
    · simp [trace_api_plugin_impl.plugin_initialize, hc, variables_map.at, hopt,
        variable_value.as_uint64, bind, Except.bind, h1, hge, pure, Except.pure]
    · intro h; exact absurd h hne
    · intro _
      simp only [to_int64, hlt, if_true]
      exact ⟨trivial, Int.natCast_nonneg _⟩
    · simp only [to_int64, hlt, if_true, microseconds.maximum, microseconds.mk.injEq]
      constructor
      · intro h
        right
        have : (v.val : Int) = 9223372036854775807 := h
        omega
      · intro h
        rcases h with h | h
        · exact absurd h hne
        · rw [h]; norm_num

/-- Witness for C8 (amended) at the value 5: the stored duration is 5
microseconds. -/
theorem minimum_irreversible_history_of_option_witness :
    ∃ s, trace_api_plugin_impl.plugin_initialize {}
        [("trace-minimum-irreversible-history-us", .of_uint64 5)] = .ok s ∧
      ((5 : uint64_t).val = 2 ^ 64 - 1 →
        s.minimum_irreversible_trace_history = microseconds.maximum) ∧
      ((5 : uint64_t).val < 2 ^ 63 →
        s.minimum_irreversible_trace_history.count = ((5 : uint64_t).val : Int) ∧
        0 ≤ s.minimum_irreversible_trace_history.count) ∧
      (s.minimum_irreversible_trace_history = microseconds.maximum ↔
        (5 : uint64_t).val = 2 ^ 64 - 1 ∨ (5 : uint64_t).val = 2 ^ 63 - 1) :=
  minimum_irreversible_history_of_option {}
    [("trace-minimum-irreversible-history-us", .of_uint64 5)] 5 (by decide)
    (Or.inr (by decide))

/-- C9 (as stated) fails: with `trace-slice-stride = 0` (and the default
`trace-dir`), `trace_api_common_impl::plugin_initialize` completes and leaves
`slice_stride = 0`; it raises no configuration error. -/
theorem slice_stride_zero_counterexample :
    trace_api_common_impl.plugin_initialize sample_application {}
        [("trace-dir", .of_path "traces"), ("trace-slice-stride", .of_uint32 0)] =
      .ok { trace_dir := "/data/traces", slice_stride := 0 } := by
  rfl

/-- C9 (amended): `trace_api_common_impl::plugin_initialize` accepts every
32-bit value of `trace-slice-stride`, zero included: it completes without an
error and stores the value in `slice_stride` as given. -/
theorem common_plugin_initialize_accepts_every_stride (app : application)
    (self : trace_api_common_impl) (options : variables_map) (dir : path) (stride : uint32_t)
    (hdir : options.lookup "trace-dir" = some (.of_path dir))
    (hstride : options.lookup "trace-slice-stride" = some (.of_uint32 stride)) :
    trace_api_common_impl.plugin_initialize app self options =
      .ok { trace_dir := if app.is_relative dir then app.join app.data_dir dir else dir,
            slice_stride := stride } := by
  simp only [trace_api_common_impl.plugin_initialize, variables_map.at, hdir, hstride,
    variable_value.as_path, variable_value.as_uint32, bind, Except.bind, pure, Except.pure]
  split <;> rfl

/-- Witness for C9 (amended) at stride 0 and the default directory. -/
theorem common_plugin_initialize_accepts_every_stride_witness :
    trace_api_common_impl.plugin_initialize sample_application {}
        [("trace-dir", .of_path "traces"), ("trace-slice-stride", .of_uint32 0)] =
      .ok { trace_dir :=
              if sample_application.is_relative "traces" then
                sample_application.join sample_application.data_dir "traces"
              else "traces",
            slice_stride := 0 } :=
  common_plugin_initialize_accepts_every_stride sample_application {}
    [("trace-dir", .of_path "traces"), ("trace-slice-stride", .of_uint32 0)] "traces" 0
    (by decide) (by decide)

/-- C10: for every 64-bit unsigned value of
`trace-minimum-irreversible-history-us`, `plugin_initialize` completes without
raising: one of `value == -1` and `value >= 0` holds, so the branch that throws
`plugin_config_exception` is not reached; and whatever the option map holds,
`plugin_initialize` never raises `plugin_config_exception`. -/
theorem plugin_initialize_rejects_no_retention_value (self : trace_api_plugin_impl)
    (options : variables_map) (v : uint64_t)
    (hopt : options.lookup "trace-minimum-irreversible-history-us" = some (.of_uint64 v)) :
    (v = to_uint64 (-1) ∨ v ≥ to_uint64 0) ∧
    (∃ s, trace_api_plugin_impl.plugin_initialize self options = .ok s) ∧
    (∀ (other : variables_map) (msg : String),
      trace_api_plugin_impl.plugin_initialize self other ≠
        .error (.plugin_config_exception msg)) := by
  have hge : ∀ w : uint64_t, w ≥ to_uint64 0 := by
    intro w
    rw [to_uint64_zero]
    exact Fin.zero_le _
  refine ⟨Or.inr (hge v), ?_, ?_⟩
  · have hc : options.count "trace-minimum-irreversible-history-us" = 1 := count_of_lookup hopt
    by_cases h1 : v = to_uint64 (-1)
    · refine ⟨{ self with minimum_irreversible_trace_history := microseconds.maximum }, ?_⟩
      simp [trace_api_plugin_impl.plugin_initialize, hc, variables_map.at, hopt,
        variable_value.as_uint64, bind, Except.bind, h1, pure, Except.pure]
    · refine ⟨{ self with minimum_irreversible_trace_history := ⟨to_int64 v⟩ }, ?_⟩
      simp [trace_api_plugin_impl.plugin_initialize, hc, variables_map.at, hopt,
        variable_value.as_uint64, bind, Except.bind, h1, hge v, pure, Except.pure]
  · intro other msg
    unfold trace_api_plugin_impl.plugin_initialize
    by_cases hc : other.count "trace-minimum-irreversible-history-us" = 0
    · simp [hc, pure, Except.pure]
    · have hl : other.lookup "trace-minimum-irreversible-history-us" ≠ none := by
        rwa [Ne, ← count_eq_zero_iff]
      obtain ⟨val, hval⟩ := Option.ne_none_iff_exists'.1 hl
      simp only [hc, ne_eq, not_false_eq_true, if_true, variables_map.at, hval, bind,
        Except.bind]
      cases val with
      | of_uint64 w =>
        simp only [variable_value.as_uint64]
        by_cases h1 : w = to_uint64 (-1)
        · simp [h1, pure, Except.pure]
        · simp [h1, hge w, pure, Except.pure]
      | _ => simp [variable_value.as_uint64]

/-- Witness for C10 at the value `2^64 - 2`. -/
theorem plugin_initialize_rejects_no_retention_value_witness :
    ((⟨2 ^ 64 - 2, by norm_num⟩ : uint64_t) = to_uint64 (-1) ∨
      (⟨2 ^ 64 - 2, by norm_num⟩ : uint64_t) ≥ to_uint64 0) ∧
    (∃ s, trace_api_plugin_impl.plugin_initialize {}
      [("trace-minimum-irreversible-history-us", .of_uint64 ⟨2 ^ 64 - 2, by norm_num⟩)] =
        .ok s) ∧
    (∀ (other : variables_map) (msg : String),
      trace_api_plugin_impl.plugin_initialize {} other ≠
        .error (.plugin_config_exception msg)) :=
  plugin_initialize_rejects_no_retention_value {}
    [("trace-minimum-irreversible-history-us", .of_uint64 ⟨2 ^ 64 - 2, by norm_num⟩)]
    ⟨2 ^ 64 - 2, by norm_num⟩ (by decide)


/-! ## Part II: readers and writers -/

theorem bind_eq_some_iff {α β : Type} (p : reader α) (f : α → reader β) (x : bytes)
    (b : β) (rest : bytes) :
    (p >>= f) x = some (b, rest) ↔ ∃ a r, p x = some (a, r) ∧ f a r = some (b, rest) := by
  show (p x >>= fun as => f as.1 as.2) = some (b, rest) ↔ _
  cases h : p x with
  | none => simp
  | some as =>
    obtain ⟨a, r⟩ := as
    simp only [Option.some_bind, Option.some.injEq, Prod.mk.injEq]
    constructor
    · intro hf; exact ⟨a, r, ⟨rfl, rfl⟩, hf⟩
    · rintro ⟨a1, r1, ⟨rfl, rfl⟩, hf⟩; exact hf

theorem bind_of_eq_some {α β : Type} {p : reader α} {f : α → reader β} {x : bytes}
    {a : α} {r : bytes} (h : p x = some (a, r)) : (p >>= f) x = f a r := by
  show (p x >>= fun as => f as.1 as.2) = _
  rw [h]
  rfl

theorem consumes_pure {α : Type} (a : α) : consumes (pure a : reader α) := by
  intro x b rest h
  have h2 : some (a, x) = some (b, rest) := h
  simp only [Option.some.injEq, Prod.mk.injEq] at h2
  obtain ⟨rfl, rfl⟩ := h2
  exact ⟨[], rfl, fun r => rfl⟩

theorem consumes_failure {α : Type} : consumes (failure : reader α) := by
  intro x b rest h
  exact absurd h (by simp [failure, StateT.failure, Alternative.failure])

theorem consumes_bind {α β : Type} {p : reader α} {f : α → reader β}
    (hp : consumes p) (hf : ∀ a, consumes (f a)) : consumes (p >>= f) := by
  intro x b rest h
  obtain ⟨a, r, h1, h2⟩ := (bind_eq_some_iff p f x b rest).1 h
  obtain ⟨f1, rfl, k1⟩ := hp x a r h1
  obtain ⟨f2, rfl, k2⟩ := hf a r b rest h2
  refine ⟨f1 ++ f2, by simp, fun r' => ?_⟩
  rw [List.append_assoc, bind_of_eq_some (k1 (f2 ++ r'))]
  exact k2 r'

theorem consumes_read_byte : consumes read_byte := by
  intro x a rest h
  cases x with
  | nil => simp [read_byte] at h
  | cons b r =>
    simp only [read_byte, Option.some.injEq, Prod.mk.injEq] at h
    obtain ⟨rfl, rfl⟩ := h
    exact ⟨[b], rfl, fun r' => rfl⟩

theorem consumes_read_fixed (n : Nat) : consumes (read_fixed n) := by
  intro x a rest h
  unfold read_fixed at h
  split at h
  · rename_i hn
    simp only [Option.some.injEq, Prod.mk.injEq] at h
    obtain ⟨rfl, rfl⟩ := h
    refine ⟨x.take n, (List.take_append_drop n x).symm, fun r => ?_⟩
    have hl : (x.take n).length = n := List.length_take_of_le hn
    unfold read_fixed
    rw [if_pos (by simp [hl])]
    simp [List.take_append_eq_append_take, List.drop_append_eq_append_drop, hl]
  · simp at h

theorem consumes_require (c : Bool) : consumes (require c) := by
  intro x a rest h
  unfold require at h
  split at h
  · rename_i hc
    simp only [Option.some.injEq, Prod.mk.injEq] at h
    obtain ⟨_, rfl⟩ := h
    exact ⟨[], rfl, fun r => by simp [require, hc]⟩
  · simp at h

theorem consumes_read_varuint : consumes read_varuint := by
  intro x
  induction x with
  | nil => intro a rest h; simp [read_varuint] at h
  | cons b r ih =>
    intro a rest h
    unfold read_varuint at h
    split at h
    · rename_i hb
      simp only [Option.some.injEq, Prod.mk.injEq] at h
      obtain ⟨rfl, rfl⟩ := h
      exact ⟨[b], rfl, fun r' => by simp [read_varuint, hb]⟩
    · rename_i hb
      cases hr : read_varuint r with
      | none => rw [hr] at h; simp at h
      | some vr =>
        obtain ⟨v, r1⟩ := vr
        rw [hr] at h
        simp only [Option.some.injEq, Prod.mk.injEq] at h
        obtain ⟨rfl, rfl⟩ := h
        obtain ⟨f, rfl, k⟩ := ih v r1 hr
        refine ⟨b :: f, rfl, fun r' => ?_⟩
        show read_varuint (b :: (f ++ r')) = _
        unfold read_varuint
        rw [if_neg hb, k r']

theorem consumes_read_le (w : Nat) : consumes (read_le w) := by
  induction w with
  | zero => exact consumes_pure 0
  | succ w ih =>
    unfold read_le
    exact consumes_bind consumes_read_byte fun b =>
      consumes_bind ih fun v => consumes_pure _

theorem consumes_read_uint (w bound : Nat) : consumes (read_uint w bound) := by
  unfold read_uint
  refine consumes_bind (consumes_read_le w) fun v => ?_
  split
  · exact consumes_pure _
  · exact consumes_failure

theorem consumes_read_blob : consumes read_blob := by
  unfold read_blob
  exact consumes_bind consumes_read_varuint fun n => consumes_read_fixed n

theorem consumes_read_items {α : Type} {p : reader α} (hp : consumes p) (n : Nat) :
    consumes (read_items p n) := by
  induction n with
  | zero => exact consumes_pure []
  | succ n ih =>
    unfold read_items
    exact consumes_bind hp fun a => consumes_bind ih fun rest => consumes_pure _

theorem consumes_read_list {α : Type} {p : reader α} (hp : consumes p) :
    consumes (read_list p) := by
  unfold read_list
  exact consumes_bind consumes_read_varuint fun n => consumes_read_items hp n

theorem consumes_read_prunable : consumes read_prunable := by
  unfold read_prunable
  refine consumes_bind consumes_read_byte fun tag => ?_
  refine consumes_bind consumes_read_blob fun body => ?_
  split
  · split
    · exact consumes_pure _
    · exact consumes_failure
  · split
    · exact consumes_pure _
    · exact consumes_failure

theorem consumes_read_trace_head : consumes read_trace_head := by
  unfold read_trace_head
  refine consumes_bind consumes_read_byte fun tag => ?_
  refine consumes_bind (consumes_require _) fun _ => ?_
  refine consumes_bind (consumes_read_fixed _) fun d => ?_
  split
  · refine consumes_bind consumes_read_byte fun status => ?_
    refine consumes_bind consumes_read_byte fun present => ?_
    split
    · refine consumes_bind (consumes_read_uint _ _) fun e => ?_
      refine consumes_bind (consumes_read_uint _ _) fun n => ?_
      refine consumes_bind (consumes_read_uint _ _) fun i => ?_
      exact consumes_bind (consumes_read_list consumes_read_blob) fun a => consumes_pure _
    · split
      · exact consumes_pure _
      · exact consumes_failure
  · exact consumes_failure

theorem consumes_read_trace : consumes read_trace := by
  unfold read_trace
  refine consumes_bind consumes_read_trace_head fun h => ?_
  split
  · exact consumes_pure _
  · exact consumes_bind consumes_read_prunable fun pd => consumes_pure _

theorem consumes_read_traces : consumes read_traces :=
  consumes_read_list consumes_read_trace

theorem bind_apply {α β : Type} (p : reader α) (f : α → reader β) (x : bytes) :
    (p >>= f) x = (p x).bind fun as => f as.1 as.2 := rfl

theorem pure_apply {α : Type} (a : α) (x : bytes) : (pure a : reader α) x = some (a, x) := rfl

theorem get_apply (x : bytes) : (get : reader bytes) x = some (x, x) := rfl

theorem failure_apply {α : Type} (x : bytes) : (failure : reader α) x = none := rfl

theorem read_byte_cons (b : byte) (r : bytes) : read_byte (b :: r) = some (b, r) := rfl

theorem require_true (x : bytes) : require true x = some ((), x) := rfl

theorem read_fixed_append (b r : bytes) : read_fixed b.length (b ++ r) = some (b, r) := by
  simp [read_fixed]

theorem read_varuint_write_aux (fuel n : Nat) (h : n < fuel) (r : bytes) :
    read_varuint (write_varuint_aux fuel n ++ r) = some (n, r) := by
  induction fuel generalizing n with
  | zero => omega
  | succ fuel ih =>
    unfold write_varuint_aux
    split
    · rename_i hn
      simp [read_varuint, hn]
    · rename_i hn
      have hlt : n / 128 < fuel := by omega
      simp only [List.cons_append]
      unfold read_varuint
      rw [if_neg (by simp), ih (n / 128) hlt]
      simp only [Option.some.injEq, Prod.mk.injEq, and_true]
      omega

theorem read_varuint_write : reads_back read_varuint write_varuint := by
  intro n r
  exact read_varuint_write_aux (n + 1) n (by omega) r

theorem read_le_write (w v : Nat) (h : v < 256 ^ w) (r : bytes) :
    read_le w (write_le w v ++ r) = some (v, r) := by
  induction w generalizing v with
  | zero =>
    have : v = 0 := by simpa using h
    subst this
    rfl
  | succ w ih =>
    have hlt : v / 256 < 256 ^ w := by
      rw [Nat.div_lt_iff_lt_mul (by norm_num)]
      rw [pow_succ] at h
      exact h
    simp only [write_le, read_le, List.cons_append, bind_apply, read_byte_cons,
      Option.some_bind, ih (v / 256) hlt, pure_apply, Option.some.injEq, Prod.mk.injEq,
      and_true]
    omega

theorem read_uint_write (w bound : Nat) (hb : bound ≤ 256 ^ w) (v : Fin bound) (r : bytes) :
    read_uint w bound (write_le w v.val ++ r) = some (v, r) := by
  have h : v.val < 256 ^ w := lt_of_lt_of_le v.isLt hb
  simp only [read_uint, bind_apply, read_le_write w v.val h, Option.some_bind, v.isLt,
    dite_true, pure_apply]

theorem read_blob_write : reads_back read_blob write_blob := by
  intro b r
  simp only [read_blob, write_blob, bind_apply, List.append_assoc, read_varuint_write _ _,
    Option.some_bind, read_fixed_append]

theorem read_items_write {α : Type} {p : reader α} {w : α → bytes} (h : reads_back p w)
    (l : List α) (r : bytes) :
    read_items p l.length (write_items w l ++ r) = some (l, r) := by
  induction l with
  | nil => rfl
  | cons a l ih =>
    simp only [List.length_cons, read_items, write_items, List.append_assoc, bind_apply,
      h a _, Option.some_bind, ih, pure_apply]

theorem read_list_write {α : Type} {p : reader α} {w : α → bytes} (h : reads_back p w) :
    reads_back (read_list p) (write_list w) := by
  intro l r
  simp only [read_list, write_list, bind_apply, List.append_assoc, read_varuint_write _ _,
    Option.some_bind, read_items_write h]

theorem read_full_body_write (signatures : List bytes) (context_free_data : bytes) :
    read_full_body (write_full_body signatures context_free_data) =
      some (.full signatures context_free_data, []) := by
  have h2 : read_blob (write_blob context_free_data) = some (context_free_data, []) := by
    have := read_blob_write context_free_data []
    rwa [List.append_nil] at this
  simp only [read_full_body, write_full_body, bind_apply,
    read_list_write read_blob_write signatures _, Option.some_bind, h2, get_apply,
    List.isEmpty_nil, require_true, pure_apply]

theorem read_prunable_write : reads_back read_prunable write_prunable := by
  intro pd r
  cases pd with
  | full signatures context_free_data =>
    simp only [read_prunable, write_prunable, List.cons_append, bind_apply, read_byte_cons,
      Option.some_bind, read_blob_write _ _, if_true, read_full_body_write, pure_apply]
  | none =>
    have hne : tag_none ≠ tag_full := by decide
    simp only [read_prunable, write_prunable, List.cons_append, bind_apply, read_byte_cons,
      Option.some_bind, read_blob_write _ _, if_neg hne, if_true, pure_apply]

theorem read_id_append (id : transaction_id_type) (r : bytes) :
    read_fixed id_width (id.val ++ r) = some (id.val, r) := by
  have h := read_fixed_append id.val r
  rwa [id.property] at h

theorem read_trace_head_write (t : transaction_trace) (r : bytes) :
    read_trace_head (write_trace_head t ++ r) =
      some (⟨t.id, t.status,
        t.partial_trx.map fun p => (p.expiration, p.ref_block_num, p.ref_block_id, p.actions)⟩,
        r) := by
  obtain ⟨id, status, ptrx⟩ := t
  cases ptrx with
  | none =>
    have h10 : ¬ ((0 : byte) = 1) := by decide
    simp only [read_trace_head, write_trace_head, List.cons_append, List.append_assoc,
      bind_apply, read_byte_cons, Option.some_bind, decide_True, require_true,
      read_id_append, id.property, dite_true, h10, if_false, if_true, pure_apply,
      Option.map_none', List.nil_append, Subtype.coe_eta]
  | some p =>
    have e32 : (2 : Nat) ^ 32 ≤ 256 ^ 4 := by norm_num
    have e16 : (2 : Nat) ^ 16 ≤ 256 ^ 2 := by norm_num
    simp only [read_trace_head, write_trace_head, List.cons_append, List.append_assoc,
      bind_apply, read_byte_cons, Option.some_bind, decide_True, require_true,
      read_id_append, id.property, dite_true, if_true, pure_apply, Option.map_some',
      read_uint_write 4 (2 ^ 32) e32, read_uint_write 2 (2 ^ 16) e16,
      read_list_write read_blob_write _ _]

theorem read_trace_write : reads_back read_trace write_trace := by
  intro t r
  obtain ⟨id, status, ptrx⟩ := t
  cases ptrx with
  | none =>
    simp only [read_trace, write_trace, List.append_assoc, bind_apply, read_trace_head_write,
      Option.some_bind, Option.map_none', pure_apply, List.nil_append]
  | some p =>
    simp only [read_trace, write_trace, List.append_assoc, bind_apply, read_trace_head_write,
      Option.some_bind, Option.map_some', read_prunable_write _ _, pure_apply]

theorem read_traces_write : reads_back read_traces write_traces :=
  read_list_write read_trace_write

theorem decode_payload_frame (z : compression_library) (hz : z.lossless)
    (c : compression_type) (x : bytes) :
    decode_payload z (frame z c x) = .ok (c, x) := by
  cases c with
  | none => rfl
  | zlib =>
    have h : compression_tag .zlib ≠ compression_tag .none := by decide
    simp only [decode_payload, frame, encode_payload, if_neg h, if_true, hz x]

theorem stored_zlib_lossless : stored_zlib.lossless := by
  intro x
  simp [stored_zlib]

theorem stored_zlib_length_stable : stored_zlib.length_stable := by
  intro x y h
  simp [stored_zlib, h]

/-- C3: for every trace set `T` and every compression kind, unpacking the
bytes produced by packing `T` with `include_signatures = true` returns `T`,
in the same order (the compression library being lossless). -/
theorem unpack_pack (z : compression_library) (hz : z.lossless)
    (T : List transaction_trace) (C : compression_type) :
    unpack z (pack z true T C) = .ok T := by
  have h : read_traces (write_traces T) = some (T, []) := by
    have := read_traces_write T []
    rwa [List.append_nil] at this
  simp only [unpack, pack, if_true, decode_payload_frame z hz, bind, Except.bind, h]
  rfl

/-- Witness for C3: a two-trace set packed with the stored scheme under the
zlib tag. -/
theorem unpack_pack_witness :
    unpack stored_zlib (pack stored_zlib true [sample_trace_full, sample_trace_bare] .zlib) =
      .ok [sample_trace_full, sample_trace_bare] :=
  unpack_pack stored_zlib stored_zlib_lossless [sample_trace_full, sample_trace_bare] .zlib


/-! ## Part II: the pruning scan -/

theorem take_front (front r : bytes) :
    (front ++ r).take ((front ++ r).length - r.length) = front := by
  simp

/-- A successful read of a PrunableData splits the buffer into the tag, the
size field, the content and the rest. -/
theorem read_prunable_parts (x : bytes) (pd : prunable_data_t) (rest : bytes)
    (h : read_prunable x = some (pd, rest)) :
    ∃ (tag : byte) (size content : bytes),
      x = tag :: (size ++ (content ++ rest)) ∧
      (∀ r, read_varuint (size ++ r) = some (content.length, r)) ∧
      ((tag = tag_full ∧ ∃ rest2, read_full_body content = some (pd, rest2)) ∨
        (tag = tag_none ∧ pd = .none)) := by
  unfold read_prunable at h
  obtain ⟨tag, x1, h1, hb⟩ := (bind_eq_some_iff _ _ _ _ _).1 h
  obtain ⟨content, x2, h2, hc2⟩ := (bind_eq_some_iff _ _ _ _ _).1 hb
  cases x with
  | nil => simp [read_byte] at h1
  | cons b x0 =>
    simp only [read_byte, Option.some.injEq, Prod.mk.injEq] at h1
    obtain ⟨rfl, rfl⟩ := h1
    unfold read_blob at h2
    obtain ⟨n, x3, h3, h4⟩ := (bind_eq_some_iff _ _ _ _ _).1 h2
    obtain ⟨size, rfl, ksize⟩ := consumes_read_varuint _ _ _ h3
    have hfix : n ≤ x3.length ∧ content = x3.take n ∧ x2 = x3.drop n := by
      unfold read_fixed at h4
      split at h4
      · rename_i hn
        simp only [Option.some.injEq, Prod.mk.injEq] at h4
        exact ⟨hn, h4.1.symm, h4.2.symm⟩
      · simp at h4
    obtain ⟨hn, hc, hx2⟩ := hfix
    have hlen : content.length = n := by rw [hc]; exact List.length_take_of_le hn
    have hx3 : x3 = content ++ x2 := by rw [hc, hx2, List.take_append_drop]
    by_cases htag : b = tag_full
    · rw [if_pos htag] at hc2
      cases hbody : read_full_body content with
      | none => rw [hbody] at hc2; simp [failure_apply] at hc2
      | some pr =>
        obtain ⟨pd2, rest2⟩ := pr
        rw [hbody] at hc2
        simp only [pure_apply, Option.some.injEq, Prod.mk.injEq] at hc2
        obtain ⟨rfl, rfl⟩ := hc2
        exact ⟨b, size, content, by rw [hx3], fun r => by rw [hlen]; exact ksize r,
          Or.inl ⟨htag, rest2, hbody⟩⟩
    · rw [if_neg htag] at hc2
      by_cases htag2 : b = tag_none
      · rw [if_pos htag2] at hc2
        simp only [pure_apply, Option.some.injEq, Prod.mk.injEq] at hc2
        obtain ⟨rfl, rfl⟩ := hc2
        exact ⟨b, size, content, by rw [hx3], fun r => by rw [hlen]; exact ksize r,
          Or.inr ⟨htag2, rfl⟩⟩
      · rw [if_neg htag2] at hc2
        simp [failure_apply] at hc2

theorem copy_prunable_parts (tag : byte) (size content r : bytes)
    (hsize : ∀ r, read_varuint (size ++ r) = some (content.length, r)) :
    copy_prunable (tag :: (size ++ (content ++ r))) = some (tag :: (size ++ content), r) := by
  simp only [copy_prunable, bind_apply, read_byte_cons, Option.some_bind, get_apply, hsize,
    read_fixed_append, pure_apply, take_front, List.cons_append]

theorem prune_prunable_parts (tag : byte) (size content r : bytes)
    (hsize : ∀ r, read_varuint (size ++ r) = some (content.length, r)) :
    prune_prunable (tag :: (size ++ (content ++ r))) =
      some (if tag = tag_full then
              tag_none :: (size ++ List.replicate content.length (0 : byte))
            else tag :: (size ++ content), r) := by
  simp only [prune_prunable, bind_apply, read_byte_cons, Option.some_bind, get_apply, hsize,
    read_fixed_append, take_front]
  split <;> simp [pure_apply]

theorem read_prunable_none_parts (size content r : bytes)
    (hsize : ∀ r, read_varuint (size ++ r) = some (content.length, r)) :
    read_prunable (tag_none :: (size ++ (content ++ r))) = some (.none, r) := by
  have hne : tag_none ≠ tag_full := by decide
  simp only [read_prunable, read_blob, bind_apply, read_byte_cons, Option.some_bind, hsize,
    read_fixed_append, if_neg hne, if_true, pure_apply]

theorem read_trace_bare_of_head (front : bytes) (hd : trace_head)
    (khead : ∀ r, read_trace_head (front ++ r) = some (hd, r))
    (hph : hd.partial_head = Option.none) (y : bytes) :
    read_trace (front ++ y) = some (⟨hd.id, hd.status, Option.none⟩, y) := by
  simp only [read_trace, bind_apply, khead, Option.some_bind]
  rw [hph]
  rfl

theorem prune_trace_bare_of_head (ids : List transaction_id_type) (front : bytes)
    (hd : trace_head) (khead : ∀ r, read_trace_head (front ++ r) = some (hd, r))
    (hph : hd.partial_head = Option.none) (y : bytes) :
    prune_trace ids (front ++ y) = some ((front, hd.id), y) := by
  simp only [prune_trace, bind_apply, get_apply, khead, Option.some_bind, take_front]
  rw [hph]
  rfl

theorem read_trace_of_head (front : bytes) (hd : trace_head)
    (khead : ∀ r, read_trace_head (front ++ r) = some (hd, r))
    (e : uint32_t) (n : Fin (2 ^ 16)) (i : uint32_t) (a : List bytes)
    (hph : hd.partial_head = some (e, n, i, a)) (y : bytes) (pd : prunable_data_t) (r : bytes)
    (hy : read_prunable y = some (pd, r)) :
    read_trace (front ++ y) = some (⟨hd.id, hd.status, some ⟨e, n, i, a, pd⟩⟩, r) := by
  simp only [read_trace, bind_apply, khead, Option.some_bind]
  rw [hph]
  simp only [bind_apply, hy, Option.some_bind, pure_apply]

theorem prune_trace_hit_of_head (ids : List transaction_id_type) (front : bytes)
    (hd : trace_head) (khead : ∀ r, read_trace_head (front ++ r) = some (hd, r))
    (e : uint32_t) (n : Fin (2 ^ 16)) (i : uint32_t) (a : List bytes)
    (hph : hd.partial_head = some (e, n, i, a)) (hid : hd.id ∈ ids) (y out r : bytes)
    (hy : prune_prunable y = some (out, r)) :
    prune_trace ids (front ++ y) = some ((front ++ out, hd.id), r) := by
  simp only [prune_trace, bind_apply, get_apply, khead, Option.some_bind, take_front]
  rw [hph]
  simp only [bind_apply, if_pos hid, hy, Option.some_bind, pure_apply]

theorem prune_trace_miss_of_head (ids : List transaction_id_type) (front : bytes)
    (hd : trace_head) (khead : ∀ r, read_trace_head (front ++ r) = some (hd, r))
    (e : uint32_t) (n : Fin (2 ^ 16)) (i : uint32_t) (a : List bytes)
    (hph : hd.partial_head = some (e, n, i, a)) (hid : hd.id ∉ ids) (y out r : bytes)
    (hy : copy_prunable y = some (out, r)) :
    prune_trace ids (front ++ y) = some ((front ++ out, hd.id), r) := by
  simp only [prune_trace, bind_apply, get_apply, khead, Option.some_bind, take_front]
  rw [hph]
  simp only [bind_apply, if_neg hid, hy, Option.some_bind, pure_apply]

/-- Scanning one trace: the scan succeeds where the reader does, stops at the
same place, keeps the length, leaves a trace that is not in `ids` as it is,
and its output reads back as the pruned trace and is a fixed point of the
scan. -/
theorem prune_trace_spec (ids : List transaction_id_type) (x : bytes)
    (t : transaction_trace) (rest : bytes) (h : read_trace x = some (t, rest)) :
    ∃ out : bytes, out.length + rest.length = x.length ∧
      (t.id ∉ ids → out ++ rest = x) ∧
      prune_trace ids x = some ((out, t.id), rest) ∧
      (∀ r, read_trace (out ++ r) = some (pruned_trace ids t, r)) ∧
      (∀ r, prune_trace ids (out ++ r) = some ((out, t.id), r)) := by
  have h0 := h
  unfold read_trace at h
  obtain ⟨hd, x1, hhead, hcont⟩ := (bind_eq_some_iff _ _ _ _ _).1 h
  obtain ⟨front, rfl, khead⟩ := consumes_read_trace_head _ _ _ hhead
  cases hph : hd.partial_head with
  | none =>
    have hr := read_trace_bare_of_head front hd khead hph x1
    rw [hr] at h0
    simp only [Option.some.injEq, Prod.mk.injEq] at h0
    obtain ⟨rfl, rfl⟩ := h0
    refine ⟨front, by simp, fun _ => rfl, prune_trace_bare_of_head ids front hd khead hph _,
      fun r => ?_, fun r => prune_trace_bare_of_head ids front hd khead hph r⟩
    rw [read_trace_bare_of_head front hd khead hph r]
    simp [pruned_trace, redact]
  | some q =>
    obtain ⟨e, n, i, a⟩ := q
    simp only [hph] at hcont
    obtain ⟨pd, x2, hpd, hfin⟩ := (bind_eq_some_iff _ _ _ _ _).1 hcont
    simp only [pure_apply, Option.some.injEq, Prod.mk.injEq] at hfin
    obtain ⟨rfl, rfl⟩ := hfin
    obtain ⟨tag, size, content, rfl, hsize, hcase⟩ := read_prunable_parts _ _ _ hpd
    by_cases hid : hd.id ∈ ids
    · -- the trace is pruned
      have hout : ∃ c : bytes, c.length = content.length ∧
          ∀ r, prune_prunable (tag :: (size ++ (content ++ r))) =
            some (tag_none :: (size ++ c), r) := by
        rcases hcase with ⟨htag, _⟩ | ⟨htag, _⟩
        · refine ⟨List.replicate content.length 0, by simp, fun r => ?_⟩
          rw [prune_prunable_parts tag size content r hsize, if_pos htag]
        · refine ⟨content, rfl, fun r => ?_⟩
          have hne : tag ≠ tag_full := by rw [htag]; decide
          rw [prune_prunable_parts tag size content r hsize, if_neg hne, htag]
      obtain ⟨c, hc, hprune⟩ := hout
      have hsize2 : ∀ r, read_varuint (size ++ r) = some (c.length, r) := by
        intro r; rw [hc]; exact hsize r
      have hne : tag_none ≠ tag_full := by decide
      refine ⟨front ++ tag_none :: (size ++ c), by simp [hc]; omega,
        fun hn => absurd hid hn, ?_, fun r => ?_, fun r => ?_⟩
      · exact prune_trace_hit_of_head ids front hd khead e n i a hph hid _ _ _ (hprune x2)
      · have hrd := read_trace_of_head front hd khead e n i a hph
          (tag_none :: (size ++ (c ++ r))) .none r (read_prunable_none_parts size c r hsize2)
        simp only [List.append_assoc, List.cons_append]
        rw [hrd]
        simp [pruned_trace, hid, redact]
      · have hp2 : prune_prunable (tag_none :: (size ++ (c ++ r))) =
            some (tag_none :: (size ++ c), r) := by
          rw [prune_prunable_parts tag_none size c r hsize2, if_neg hne]
        have := prune_trace_hit_of_head ids front hd khead e n i a hph hid _ _ _ hp2
        simpa only [List.append_assoc, List.cons_append] using this
    · -- the trace is copied
      have hcopy := copy_prunable_parts tag size content
      have hread : ∀ r, read_prunable (tag :: (size ++ (content ++ r))) = some (pd, r) := by
        obtain ⟨fp, hfp, kp⟩ := consumes_read_prunable _ _ _ hpd
        have hfront : fp = tag :: (size ++ content) := by
          have h1 : fp ++ x2 = (tag :: (size ++ content)) ++ x2 := by
            rw [← hfp]; simp
          exact List.append_cancel_right h1
        intro r
        have := kp r
        rw [hfront] at this
        simpa only [List.append_assoc, List.cons_append] using this
      refine ⟨front ++ tag :: (size ++ content), by simp; omega, fun _ => by simp,
        ?_, fun r => ?_, fun r => ?_⟩
      · exact prune_trace_miss_of_head ids front hd khead e n i a hph hid _ _ _
          (hcopy x2 hsize)
      · have hrd := read_trace_of_head front hd khead e n i a hph _ pd r (hread r)
        simp only [List.append_assoc, List.cons_append]
        rw [hrd]
        simp [pruned_trace, hid]
      · have := prune_trace_miss_of_head ids front hd khead e n i a hph hid _ _ _
          (hcopy r hsize)
        simpa only [List.append_assoc, List.cons_append] using this

/-- Scanning `n` traces one after the other. -/
theorem prune_items_spec (ids : List transaction_id_type) (n : Nat) (x : bytes)
    (T : List transaction_trace) (rest : bytes)
    (h : read_items read_trace n x = some (T, rest)) :
    ∃ outs : List (bytes × transaction_id_type),
      outs.map Prod.snd = T.map (fun t => t.id) ∧
      (outs.map Prod.fst).flatten.length + rest.length = x.length ∧
      ((∀ t ∈ T, t.id ∉ ids) → (outs.map Prod.fst).flatten ++ rest = x) ∧
      read_items (prune_trace ids) n x = some (outs, rest) ∧
      (∀ r, read_items read_trace n ((outs.map Prod.fst).flatten ++ r) =
        some (T.map (pruned_trace ids), r)) ∧
      (∀ r, read_items (prune_trace ids) n ((outs.map Prod.fst).flatten ++ r) =
        some (outs, r)) := by
  induction n generalizing x T with
  | zero =>
    have h2 : some (([] : List transaction_trace), x) = some (T, rest) := h
    simp only [Option.some.injEq, Prod.mk.injEq] at h2
    obtain ⟨rfl, rfl⟩ := h2
    exact ⟨[], rfl, by simp, fun _ => rfl, rfl, fun r => rfl, fun r => rfl⟩
  | succ n ih =>
    unfold read_items at h
    obtain ⟨t, x1, ht, h1⟩ := (bind_eq_some_iff _ _ _ _ _).1 h
    obtain ⟨ts, x2, hts, h2⟩ := (bind_eq_some_iff _ _ _ _ _).1 h1
    simp only [pure_apply, Option.some.injEq, Prod.mk.injEq] at h2
    obtain ⟨rfl, rfl⟩ := h2
    obtain ⟨out, hlen, hsame, hscan, hread, hfix⟩ := prune_trace_spec ids x t x1 ht
    obtain ⟨outs, hids, hlens, hsames, hscans, hreads, hfixs⟩ := ih x1 ts hts
    refine ⟨(out, t.id) :: outs, by simp [hids], ?_, ?_, ?_, fun r => ?_, fun r => ?_⟩
    · simp only [List.map_cons, List.flatten_cons, List.length_append]
      omega
    · intro hall
      simp only [List.map_cons, List.flatten_cons, List.append_assoc]
      rw [hsames (fun t2 h2 => hall t2 (by simp [h2])), hsame (hall t (by simp))]
    · simp only [read_items, bind_apply, hscan, Option.some_bind, hscans, pure_apply]
    · simp only [List.map_cons, List.flatten_cons, List.append_assoc, read_items, bind_apply,
        hread, Option.some_bind, hreads, pure_apply]
    · simp only [List.map_cons, List.flatten_cons, List.append_assoc, read_items, bind_apply,
        hfix, Option.some_bind, hfixs, pure_apply]

/-- Scanning a serialized trace set. -/
theorem prune_payload_spec (ids : List transaction_id_type) (x : bytes)
    (T : List transaction_trace) (rest : bytes) (h : read_traces x = some (T, rest)) :
    ∃ out : bytes, out.length + rest.length = x.length ∧
      ((∀ t ∈ T, t.id ∉ ids) → out ++ rest = x) ∧
      prune_payload ids x = some ((out, T.map (fun t => t.id)), rest) ∧
      (∀ r, read_traces (out ++ r) = some (T.map (pruned_trace ids), r)) ∧
      (∀ r, prune_payload ids (out ++ r) = some ((out, T.map (fun t => t.id)), r)) := by
  unfold read_traces read_list at h
  obtain ⟨n, x1, hn, hitems⟩ := (bind_eq_some_iff _ _ _ _ _).1 h
  obtain ⟨count, rfl, kcount⟩ := consumes_read_varuint _ _ _ hn
  obtain ⟨outs, hids, hlens, hsames, hscans, hreads, hfixs⟩ :=
    prune_items_spec ids n x1 T rest hitems
  refine ⟨count ++ (outs.map Prod.fst).flatten, ?_, ?_, ?_, fun r => ?_, fun r => ?_⟩
  · simp only [List.length_append]
    omega
  · intro hall
    rw [List.append_assoc, hsames hall]
  · simp only [prune_payload, bind_apply, get_apply, Option.some_bind, kcount, take_front,
      hscans, pure_apply, hids]
  · simp only [read_traces, read_list, List.append_assoc, bind_apply, kcount,
      Option.some_bind, hreads]
  · simp only [prune_payload, List.append_assoc, bind_apply, get_apply, Option.some_bind,
      kcount, take_front, hfixs, pure_apply, hids]


/-! ## Part II: packed records -/

theorem pack_is_packed_record (z : compression_library) (include_signatures : Bool)
    (T : List transaction_trace) (C : compression_type) :
    packed_record z (pack z include_signatures T C)
      (if include_signatures then T else T.map redact) := by
  refine ⟨C, write_traces (if include_signatures then T else T.map redact), [], rfl, ?_⟩
  have := read_traces_write (if include_signatures then T else T.map redact) []
  rwa [List.append_nil] at this

theorem unpack_frame (z : compression_library) (hz : z.lossless) (C : compression_type)
    (x : bytes) (T : List transaction_trace) (rest : bytes)
    (hx : read_traces x = some (T, rest)) : unpack z (frame z C x) = .ok T := by
  simp only [unpack, decode_payload_frame z hz, bind, Except.bind, hx]
  rfl

theorem unpack_packed_record (z : compression_library) (hz : z.lossless) (R : bytes)
    (T : List transaction_trace) (hR : packed_record z R T) : unpack z R = .ok T := by
  obtain ⟨C, x, rest, rfl, hx⟩ := hR
  exact unpack_frame z hz C x T rest hx

theorem length_frame (z : compression_library) (hs : z.length_stable) (C : compression_type)
    (x y : bytes) (h : x.length = y.length) : (frame z C x).length = (frame z C y).length := by
  cases C with
  | none => simp [frame, encode_payload, h]
  | zlib => simp [frame, encode_payload, hs x y h]

/-- Pruning a framed serialization with a non-empty id list. -/
theorem prune_traces_frame (z : compression_library) (hz : z.lossless)
    (C : compression_type) (x : bytes) (T : List transaction_trace) (rest : bytes)
    (hx : read_traces x = some (T, rest)) (ids : List transaction_id_type)
    (hne : ids ≠ []) :
    ∃ out : bytes, out.length + rest.length = x.length ∧
      ((∀ t ∈ T, t.id ∉ ids) → out ++ rest = x) ∧
      prune_traces z (frame z C x) ids =
        .ok (frame z C (out ++ rest), ids.filter fun id => id ∉ T.map fun t => t.id) ∧
      read_traces (out ++ rest) = some (T.map (pruned_trace ids), rest) ∧
      prune_payload ids (out ++ rest) = some ((out, T.map fun t => t.id), rest) := by
  obtain ⟨out, hlen, hsame, hscan, hread, hfix⟩ := prune_payload_spec ids x T rest hx
  refine ⟨out, hlen, hsame, ?_, hread rest, hfix rest⟩
  have he : ids.isEmpty = false := by
    cases ids with
    | nil => exact absurd rfl hne
    | cons a l => rfl
  simp only [prune_traces, he, decode_payload_frame z hz, bind, Except.bind, hscan]
  rfl

/-- The trace set of a pruned record. -/
theorem prune_traces_packed_record (z : compression_library) (hz : z.lossless) (R : bytes)
    (T : List transaction_trace) (hR : packed_record z R T) (ids : List transaction_id_type) :
    ∃ out : bytes,
      prune_traces z R ids = .ok (out, ids.filter fun id => id ∉ T.map fun t => t.id) ∧
      packed_record z out (T.map (pruned_trace ids)) ∧
      ((∀ t ∈ T, t.id ∉ ids) → out = R) ∧
      (z.length_stable → out.length = R.length) ∧
      prune_traces z out ids = .ok (out, ids.filter fun id => id ∉ T.map fun t => t.id) := by
  obtain ⟨C, x, rest, rfl, hx⟩ := hR
  by_cases hne : ids = []
  · subst hne
    refine ⟨frame z C x, rfl, ⟨C, x, rest, rfl, ?_⟩, fun _ => rfl, fun _ => rfl, rfl⟩
    have : T.map (pruned_trace []) = T := by
      conv_rhs => rw [← List.map_id T]
      apply List.map_congr_left
      intro t _
      simp [pruned_trace]
    rw [this]
    exact hx
  · obtain ⟨out, hlen, hsame, hprune, hread, hfix⟩ :=
      prune_traces_frame z hz C x T rest hx ids hne
    refine ⟨frame z C (out ++ rest), hprune, ⟨C, out ++ rest, rest, rfl, hread⟩, ?_, ?_, ?_⟩
    · intro hall
      rw [hsame hall]
    · intro hs
      exact length_frame z hs C _ _ (by simp only [List.length_append]; omega)
    · have he : ids.isEmpty = false := by
        cases ids with
        | nil => exact absurd rfl hne
        | cons a l => rfl
      simp only [prune_traces, he, decode_payload_frame z hz, bind, Except.bind, hfix]
      rfl


/-! ## Part II: the log -/

theorem lookup_filter_ne (d : directory) (n m : slice_name) (h : m ≠ n) :
    (d.filter fun e => e.1 != n).lookup m = d.lookup m := by
  induction d with
  | nil => rfl
  | cons a d ih =>
    obtain ⟨k, f⟩ := a
    by_cases hk : k = n
    · subst hk
      have hmk : (m == k) = false := by simpa using h
      simp [List.filter, List.lookup, hmk, ih]
    · have hkn : (k != n) = true := by simpa using hk
      simp only [List.filter, hkn, List.lookup]
      rw [ih]

theorem read_write (d : directory) (n m : slice_name) (f : slice_file) :
    (d.write n f).read m = if m = n then f else d.read m := by
  unfold directory.read directory.write
  by_cases h : m = n
  · subst h
    simp [List.lookup]
  · have hb : (m == n) = false := by simpa using h
    simp only [List.lookup, hb, if_neg h]
    rw [lookup_filter_ne d n m h]

theorem read_nil (n : slice_name) : directory.read [] n = ⟨[], []⟩ := rfl

theorem range_at_end (data record : bytes) :
    ((data ++ record).drop data.length).take record.length = record := by
  simp

theorem store_read (z : compression_library) (L : log_state) (b : Nat)
    (T : List transaction_trace) (n : slice_name) :
    (store z L b T).dir.read n =
      if n = (slice_of L.stride b, L.stride) then
        { data := (L.dir.read n).data ++ pack z L.include_signatures T L.compression
          index := (L.dir.read n).index ++
            [⟨b, (L.dir.read n).data.length,
              (pack z L.include_signatures T L.compression).length⟩] }
      else L.dir.read n := by
  simp only [store, read_write]
  split
  · rename_i h; rw [h]
  · rfl

theorem store_holds_new (z : compression_library) (L : log_state) (b : Nat)
    (T : List transaction_trace) (h : L.dir.lacks b) :
    (store z L b T).dir.holds L.stride b (pack z L.include_signatures T L.compression) := by
  have hnone : (L.dir.read (slice_of L.stride b, L.stride)).index.find?
      (fun e => e.block_num = b) = none := by
    rw [List.find?_eq_none]
    intro e he
    simpa using h _ e he
  refine ⟨⟨b, (L.dir.read (slice_of L.stride b, L.stride)).data.length,
    (pack z L.include_signatures T L.compression).length⟩, ?_, ?_, ?_⟩
  · rw [store_read, if_pos rfl]
    simp [List.find?_append, hnone]
  · rw [store_read, if_pos rfl]
    simp
  · rw [store_read, if_pos rfl]
    exact range_at_end _ _

theorem length_of_holds {d : directory} {stride b : Nat} {R : bytes} {e : slice_index_entry}
    (hle : e.offset + e.length ≤ (d.read (slice_of stride b, stride)).data.length)
    (hrange : ((d.read (slice_of stride b, stride)).data.drop e.offset).take e.length = R) :
    R.length = e.length := by
  rw [← hrange, List.length_take, List.length_drop]
  omega

theorem read_record_of_holds (L : log_state) (b : Nat) (R : bytes)
    (h : L.dir.holds L.stride b R) :
    ∃ e, read_record L b = .ok (L.dir.read (slice_of L.stride b, L.stride), e, R) ∧
      (L.dir.read (slice_of L.stride b, L.stride)).index.find? (fun e => e.block_num = b) =
        some e ∧
      e.offset + R.length ≤ (L.dir.read (slice_of L.stride b, L.stride)).data.length := by
  obtain ⟨e, hfind, hle, hrange⟩ := h
  have hlen := length_of_holds hle hrange
  refine ⟨e, ?_, hfind, by omega⟩
  simp only [read_record, hfind, if_pos hle, hrange]

theorem pruned_trace_singleton (id : transaction_id_type) (t : transaction_trace) :
    pruned_trace [id] t = if t.id = id then redact t else t := by
  simp [pruned_trace]

theorem map_pruned_trace_singleton (id : transaction_id_type) (T : List transaction_trace) :
    T.map (pruned_trace [id]) = T.map fun t => if t.id = id then redact t else t := by
  apply List.map_congr_left
  intro t _
  exact pruned_trace_singleton id t

theorem mem_ids_of_get_prunable_data {T : List transaction_trace} {id : transaction_id_type}
    {pd : prunable_data_t} (h : get_prunable_data_from_traces T id = some pd) :
    id ∈ T.map fun t => t.id := by
  unfold get_prunable_data_from_traces at h
  cases hf : T.find? (fun v => v.id = id) with
  | none => rw [hf] at h; simp at h
  | some t =>
    have hmem : t ∈ T := List.mem_of_find?_eq_some hf
    have hid : t.id = id := by simpa using List.find?_some hf
    exact List.mem_map.2 ⟨t, hmem, hid⟩

theorem get_prunable_data_cons (t : transaction_trace) (T : List transaction_trace)
    (id : transaction_id_type) :
    get_prunable_data_from_traces (t :: T) id =
      if t.id = id then t.partial_trx.map fun p => p.prunable_data
      else get_prunable_data_from_traces T id := by
  unfold get_prunable_data_from_traces
  by_cases hid : t.id = id
  · rw [List.find?_cons_of_pos _ (by simpa using hid), if_pos hid]
    cases hp : t.partial_trx <;> simp [hp]
  · rw [List.find?_cons_of_neg _ (by simpa using hid), if_neg hid]

theorem get_prunable_data_pruned (T : List transaction_trace) (id : transaction_id_type)
    (pd : prunable_data_t) (h : get_prunable_data_from_traces T id = some pd) :
    get_prunable_data_from_traces (T.map fun t => if t.id = id then redact t else t) id =
      some .none := by
  induction T with
  | nil => simp [get_prunable_data_from_traces] at h
  | cons t T ih =>
    rw [get_prunable_data_cons] at h
    rw [List.map_cons, get_prunable_data_cons]
    by_cases hid : t.id = id
    · have hr : (redact t).id = id := hid
      rw [if_pos hid] at h
      rw [if_pos hid, if_pos hr]
      cases hp : t.partial_trx with
      | none => rw [hp] at h; simp at h
      | some p => simp [redact, hp]
    · rw [if_neg hid] at h
      rw [if_neg hid, if_neg hid]
      exact ih h

theorem filter_singleton_mem (id : transaction_id_type) (l : List transaction_id_type)
    (h : id ∈ l) : ([id].filter fun i => i ∉ l) = [] := by
  simp [List.filter, h]

theorem filter_singleton_not_mem (id : transaction_id_type) (l : List transaction_id_type)
    (h : id ∉ l) : ([id].filter fun i => i ∉ l) = [id] := by
  simp [List.filter, h]

/-- C1 (as stated) fails: a packed record whose only trace has the id but
carries no partial transaction. Pruning with that id succeeds and leaves the
id list empty, yet the unpacked trace has no prunable data at all, so the
test helper does not find prunable data of variant `none`. -/
theorem prune_traces_bare_trace_counterexample :
    packed_record stored_zlib (pack stored_zlib true [sample_trace_bare] .zlib)
      [sample_trace_bare] ∧
    sample_trace_bare.id = sample_id 2 ∧
    prune_traces stored_zlib (pack stored_zlib true [sample_trace_bare] .zlib) [sample_id 2] =
      .ok (pack stored_zlib true [sample_trace_bare] .zlib, []) ∧
    unpack stored_zlib (pack stored_zlib true [sample_trace_bare] .zlib) =
      .ok [sample_trace_bare] ∧
    get_prunable_data_from_traces [sample_trace_bare] (sample_id 2) ≠ some .none := by
  refine ⟨pack_is_packed_record stored_zlib true [sample_trace_bare] .zlib, rfl, ?_, ?_, ?_⟩
  · rfl
  · rfl
  · decide

/-- C1 (amended): for every packed record `R` (compressed or not) in whose
trace set the trace with id `id` carries a partial transaction, after
`prune_traces` with the id list `{id}` the list is empty and `unpack` of the
resulting bytes yields the trace set of `R` with every trace of id `id`
redacted and every other trace identical, in the same order; the prunable data
found for `id` is of variant `none`. -/
theorem prune_traces_redacts (z : compression_library) (hz : z.lossless) (R : bytes)
    (T : List transaction_trace) (hR : packed_record z R T) (id : transaction_id_type)
    (pd : prunable_data_t) (hpd : get_prunable_data_from_traces T id = some pd) :
    unpack z R = .ok T ∧
    ∃ out : bytes, prune_traces z R [id] = .ok (out, []) ∧
      unpack z out = .ok (T.map fun t => if t.id = id then redact t else t) ∧
      get_prunable_data_from_traces (T.map fun t => if t.id = id then redact t else t) id =
        some .none := by
  refine ⟨unpack_packed_record z hz R T hR, ?_⟩
  obtain ⟨out, hprune, hpacked, _, _, _⟩ := prune_traces_packed_record z hz R T hR [id]
  rw [filter_singleton_mem id _ (mem_ids_of_get_prunable_data hpd)] at hprune
  rw [map_pruned_trace_singleton] at hpacked
  exact ⟨out, hprune, unpack_packed_record z hz out _ hpacked, get_prunable_data_pruned T id pd hpd⟩

/-- Witness for C1 (amended): a compressed record with a `full` trace and a
bare trace, pruned with the id of the `full` trace. -/
theorem prune_traces_redacts_witness :
    unpack stored_zlib (pack stored_zlib true [sample_trace_full, sample_trace_bare] .zlib) =
      .ok [sample_trace_full, sample_trace_bare] ∧
    ∃ out : bytes,
      prune_traces stored_zlib
        (pack stored_zlib true [sample_trace_full, sample_trace_bare] .zlib) [sample_id 1] =
          .ok (out, []) ∧
      unpack stored_zlib out =
        .ok ([sample_trace_full, sample_trace_bare].map fun t =>
          if t.id = sample_id 1 then redact t else t) ∧
      get_prunable_data_from_traces
        ([sample_trace_full, sample_trace_bare].map fun t =>
          if t.id = sample_id 1 then redact t else t) (sample_id 1) = some .none :=
  prune_traces_redacts stored_zlib stored_zlib_lossless _ _
    (pack_is_packed_record stored_zlib true [sample_trace_full, sample_trace_bare] .zlib)
    (sample_id 1) (.full [[5, 5], [6]] [9, 9, 9]) (by decide)

theorem range_restore (data : bytes) (off len : Nat) (h : off + len ≤ data.length) :
    data.take off ++ (data.drop off).take len ++
      data.drop (off + ((data.drop off).take len).length) = data := by
  have hl : ((data.drop off).take len).length = len := by
    rw [List.length_take, List.length_drop]
    omega
  rw [hl, List.append_assoc]
  have h2 : (data.drop off).take len ++ data.drop (off + len) = data.drop off := by
    have := List.take_append_drop len (data.drop off)
    rw [List.drop_drop] at this
    rw [Nat.add_comm off len]
    first
      | exact this
      | (rw [Nat.add_comm] at this; exact this)
  rw [h2, List.take_append_drop]

/-- The ids left by `prune_transactions` on a block whose stored record is
`R`; when no trace of `R` has an id in `ids` the files are left as they
were. -/
theorem prune_transactions_remaining (z : compression_library) (hz : z.lossless)
    (L : log_state) (b : Nat) (R : bytes) (T : List transaction_trace)
    (hR : packed_record z R T) (h : L.dir.holds L.stride b R)
    (ids : List transaction_id_type) :
    ∃ L2 : log_state,
      prune_transactions z L b ids =
        .ok (L2, ids.filter fun id => id ∉ T.map fun t => t.id) ∧
      ((∀ t ∈ T, t.id ∉ ids) → ∀ n, L2.dir.read n = L.dir.read n) := by
  obtain ⟨e, hrec, hfind, hle⟩ := read_record_of_holds L b R h
  obtain ⟨out, hprune, _, hsame, _, _⟩ := prune_traces_packed_record z hz R T hR ids
  let f := L.dir.read (slice_of L.stride b, L.stride)
  let f2 : slice_file :=
    ⟨f.data.take e.offset ++ out ++ f.data.drop (e.offset + out.length), f.index⟩
  refine ⟨{ L with dir := L.dir.write (slice_of L.stride b, L.stride) f2 }, ?_, ?_⟩
  · simp only [prune_transactions, hrec, hprune, bind, Except.bind, pure, Except.pure]
  · intro hall n
    have hout : out = R := hsame hall
    obtain ⟨e2, hfind2, hle2, hrange⟩ := h
    rw [hfind] at hfind2
    cases hfind2
    have hf2 : f2 = f := by
      show (⟨f.data.take e.offset ++ out ++ f.data.drop (e.offset + out.length), f.index⟩ :
        slice_file) = f
      rw [hout, ← hrange, range_restore _ _ _ hle2]
    simp only [read_write]
    split
    · rename_i hn
      rw [hf2, hn]
    · rfl

/-- C2: for every packed record `R` with trace set `T` and every id list,
`prune_traces`, and `prune_transactions` on a block whose stored record is
`R`, leave in the list exactly the ids that do not occur in `T`. Pruning with
the single id of a stored trace leaves the list empty; pruning with a single
unknown id returns that id, raises no error and changes no byte. -/
theorem prune_leaves_exactly_the_missing_ids (z : compression_library) (hz : z.lossless)
    (R : bytes) (T : List transaction_trace) (hR : packed_record z R T)
    (ids : List transaction_id_type) :
    unpack z R = .ok T ∧
    (∃ out : bytes,
      prune_traces z R ids = .ok (out, ids.filter fun id => id ∉ T.map fun t => t.id)) ∧
    (∀ id, id ∈ (T.map fun t => t.id) → ∃ out : bytes, prune_traces z R [id] = .ok (out, [])) ∧
    (∀ id, id ∉ (T.map fun t => t.id) → prune_traces z R [id] = .ok (R, [id])) ∧
    (∀ (L : log_state) (b : Nat), L.dir.holds L.stride b R →
      (∃ L2 : log_state,
        prune_transactions z L b ids =
          .ok (L2, ids.filter fun id => id ∉ T.map fun t => t.id)) ∧
      (∀ id, id ∈ (T.map fun t => t.id) →
        ∃ L2 : log_state, prune_transactions z L b [id] = .ok (L2, [])) ∧
      (∀ id, id ∉ (T.map fun t => t.id) →
        ∃ L2 : log_state, prune_transactions z L b [id] = .ok (L2, [id]) ∧
          ∀ n, L2.dir.read n = L.dir.read n)) := by
  have hmiss : ∀ id, id ∉ (T.map fun t => t.id) → ∀ t ∈ T, t.id ∉ [id] := by
    intro id hid t ht hmem
    apply hid
    rw [List.mem_singleton] at hmem
    exact List.mem_map.2 ⟨t, ht, hmem⟩
  refine ⟨unpack_packed_record z hz R T hR, ?_, ?_, ?_, ?_⟩
  · obtain ⟨out, hprune, _⟩ := prune_traces_packed_record z hz R T hR ids
    exact ⟨out, hprune⟩
  · intro id hid
    obtain ⟨out, hprune, _⟩ := prune_traces_packed_record z hz R T hR [id]
    rw [filter_singleton_mem id _ hid] at hprune
    exact ⟨out, hprune⟩
  · intro id hid
    obtain ⟨out, hprune, _, hsame, _, _⟩ := prune_traces_packed_record z hz R T hR [id]
    rw [filter_singleton_not_mem id _ hid, hsame (hmiss id hid)] at hprune
    exact hprune
  · intro L b hholds
    refine ⟨?_, ?_, ?_⟩
    · obtain ⟨L2, h2, _⟩ := prune_transactions_remaining z hz L b R T hR hholds ids
      exact ⟨L2, h2⟩
    · intro id hid
      obtain ⟨L2, h2, _⟩ := prune_transactions_remaining z hz L b R T hR hholds [id]
      rw [filter_singleton_mem id _ hid] at h2
      exact ⟨L2, h2⟩
    · intro id hid
      obtain ⟨L2, h2, hsame⟩ := prune_transactions_remaining z hz L b R T hR hholds [id]
      rw [filter_singleton_not_mem id _ hid] at h2
      exact ⟨L2, h2, hsame (hmiss id hid)⟩

/-- Witness for C2: a compressed record with two traces. With the id list
`{1, 9}`, id 9 is not in the trace set and stays; the single id 1 leaves the
list empty; the single unknown id 9 comes back with the record unchanged; and
the same holds for `prune_transactions` on a log that stores the record as
block 1. -/
theorem prune_leaves_exactly_the_missing_ids_witness :
    stored_zlib.lossless ∧
    packed_record stored_zlib
      (pack stored_zlib true [sample_trace_full, sample_trace_bare] .zlib)
      [sample_trace_full, sample_trace_bare] ∧
    (∃ out : bytes,
      prune_traces stored_zlib
        (pack stored_zlib true [sample_trace_full, sample_trace_bare] .zlib)
        [sample_id 1, sample_id 9] =
      .ok (out, [sample_id 1, sample_id 9].filter fun id =>
        id ∉ [sample_trace_full, sample_trace_bare].map fun t => t.id)) ∧
    (∃ out : bytes,
      prune_traces stored_zlib
        (pack stored_zlib true [sample_trace_full, sample_trace_bare] .zlib) [sample_id 1] =
      .ok (out, [])) ∧
    prune_traces stored_zlib
        (pack stored_zlib true [sample_trace_full, sample_trace_bare] .zlib) [sample_id 9] =
      .ok (pack stored_zlib true [sample_trace_full, sample_trace_bare] .zlib, [sample_id 9]) ∧
    (∃ L2 : log_state,
      prune_transactions stored_zlib
        (store stored_zlib (open_log [] 2 true .zlib) 1 [sample_trace_full, sample_trace_bare])
        1 [sample_id 9] = .ok (L2, [sample_id 9]) ∧
      ∀ n, L2.dir.read n =
        (store stored_zlib (open_log [] 2 true .zlib) 1
          [sample_trace_full, sample_trace_bare]).dir.read n) :=
  ⟨stored_zlib_lossless,
   pack_is_packed_record stored_zlib true [sample_trace_full, sample_trace_bare] .zlib,
   (prune_leaves_exactly_the_missing_ids stored_zlib stored_zlib_lossless _ _
      (pack_is_packed_record stored_zlib true [sample_trace_full, sample_trace_bare] .zlib)
      [sample_id 1, sample_id 9]).2.1,
   (prune_leaves_exactly_the_missing_ids stored_zlib stored_zlib_lossless _ _
      (pack_is_packed_record stored_zlib true [sample_trace_full, sample_trace_bare] .zlib)
      []).2.2.1 (sample_id 1) (by decide),
   (prune_leaves_exactly_the_missing_ids stored_zlib stored_zlib_lossless _ _
      (pack_is_packed_record stored_zlib true [sample_trace_full, sample_trace_bare] .zlib)
      []).2.2.2.1 (sample_id 9) (by decide),
   ((prune_leaves_exactly_the_missing_ids stored_zlib stored_zlib_lossless _ _
      (pack_is_packed_record stored_zlib true [sample_trace_full, sample_trace_bare] .zlib)
      []).2.2.2.2
      (store stored_zlib (open_log [] 2 true .zlib) 1 [sample_trace_full, sample_trace_bare])
      1
      (store_holds_new stored_zlib (open_log [] 2 true .zlib) 1
        [sample_trace_full, sample_trace_bare]
        (fun n e he => by simp [open_log, read_nil] at he))).2.2 (sample_id 9) (by decide)⟩

/-- C5: for every packed record `R` and every id list, pruning is idempotent:
pruning the pruned record again with the same ids yields the same bytes and
the same remaining ids; an id of the trace set, pruned already, is not among
the remaining ids of either call. -/
theorem prune_traces_idempotent (z : compression_library) (hz : z.lossless) (R : bytes)
    (T : List transaction_trace) (hR : packed_record z R T)
    (ids : List transaction_id_type) :
    ∃ (out : bytes) (remaining : List transaction_id_type),
      prune_traces z R ids = .ok (out, remaining) ∧
      prune_traces z out ids = .ok (out, remaining) ∧
      (∀ id, id ∈ (T.map fun t => t.id) → id ∉ remaining) := by
  obtain ⟨out, hprune, _, _, _, hagain⟩ := prune_traces_packed_record z hz R T hR ids
  refine ⟨out, _, hprune, hagain, ?_⟩
  intro id hid hmem
  simp only [List.mem_filter, decide_eq_true_eq] at hmem
  exact hmem.2 hid

/-- Witness for C5: a compressed record pruned twice with the ids `{1, 9}`. -/
theorem prune_traces_idempotent_witness :
    ∃ (out : bytes) (remaining : List transaction_id_type),
      prune_traces stored_zlib
        (pack stored_zlib true [sample_trace_full, sample_trace_bare] .zlib)
        [sample_id 1, sample_id 9] = .ok (out, remaining) ∧
      prune_traces stored_zlib out [sample_id 1, sample_id 9] = .ok (out, remaining) ∧
      (∀ id, id ∈ ([sample_trace_full, sample_trace_bare].map fun t => t.id) →
        id ∉ remaining) :=
  prune_traces_idempotent stored_zlib stored_zlib_lossless _ _
    (pack_is_packed_record stored_zlib true [sample_trace_full, sample_trace_bare] .zlib)
    [sample_id 1, sample_id 9]

end eosio
